import Mathlib

/-!
Verification development for the Nuru tree-walking evaluator
(src/src/evaluator/evaluator.go).

The evaluator is embedded shallowly: the Go AST node kinds consumed by
Eval become the inductive type Node, runtime objects become Obj, and the
mutable heap (environments and arrays, which Go reaches through
pointers) becomes an explicit State record threaded through every
function.  Go nil (the absence of a result object, distinct from the
NULL object) is modelled as Option Obj with none for nil.  Go runtime
panics (out-of-range slice writes, nil dereferences, strings.Repeat on a
negative or overflowing count) and the fuel needed to make the recursion structural are
modelled by the Stop type on the Except error channel; interpreter-level
errors stay in-band as Obj.errObj values, exactly as in the source.

The ast and object packages of the repository are not part of the
given sources; everything taken from them (type tags, Inspect, the
Environment API, the Iterable protocol, the builtin registry) is
modelled from the specification and marked as such.  Operations whose
result depends on IEEE-754 double arithmetic (float infix arithmetic,
integer division and exponentiation) are outside the model and stop
evaluation with Stop.floatOp; no settled claim depends on them.
-/

/-- AST nodes consumed by Eval, one constructor per case of the Go
dispatch that the claims exercise.  A switch choice is a triple
(default flag, candidate expressions, block statements), mirroring the
fields of the parser's case node. -/
inductive Node where
  | program (stmts : List Node)
  | exprStmt (e : Node)
  | integerLit (n : Int)
  | floatLit (r : String)
  | booleanLit (b : Bool)
  | stringLit (s : String)
  | arrayLit (elts : List Node)
  | ident (name : String)
  | binE (op : String) (l : Node) (r : Node)
  | ifE (cond : Node) (cons : Node) (alt : Option Node)
  | block (stmts : List Node)
  | whileE (cond : Node) (body : Node)
  | breakE
  | continueE
  | ret (e : Node)
  | letS (name : String) (value : Node)
  | funcLit (params : List String) (body : Node)
  | call (fn : Node) (args : List Node)
  | indexE (l : Node) (idx : Node)
  | assign (left : Node) (opLit : String) (value : Node)
  | switchE (value : Node) (choices : List (Bool × List Node × List Node))
  | forIn (key : String) (val : String) (iter : Node) (body : Node)
  | nullLit
deriving Repr

/-- Runtime objects.  Arrays are mutable in the source (reached through
a pointer), so an array value is a reference into the State heap.
FloatLiteral payloads are abstracted to their printed form because no
settled claim computes with floats.  retV carries Option Obj because the
Go ReturnValue wrapper can carry a nil result.  Functions capture the
identifier of their defining environment, as the source captures the
environment pointer. -/
inductive Obj where
  | integer (n : Int)
  | float (r : String)
  | boolean (b : Bool)
  | str (s : String)
  | arr (ref : Nat)
  | nullO
  | retV (v : Option Obj)
  | breakO
  | continueO
  | errObj (msg : String)
  | fn (params : List String) (body : Node) (env : Nat)
deriving Repr

/-- Modelled from the spec: an environment is a local name-to-value map
plus an optional outer environment (3.2).  Stored values are Option Obj
because the Go map stores interface values that can be nil. -/
structure EnvData where
  store : List (String × Option Obj)
  outer : Option Nat
deriving Repr

/-- The mutable heap: environments and array element lists, addressed by
index.  Go reaches both through pointers; references never disappear, so
allocation appends and updates are in place. -/
structure State where
  envs : List EnvData
  arrays : List (List (Option Obj))
deriving Repr

/-- Out-of-band stops: exhausted fuel (an artifact of making the Go
recursion structural), Go runtime panics, and float64 arithmetic, which
is outside the model. -/
inductive Stop where
  | fuel
  | goPanic (msg : String)
  | floatOp
deriving Repr

/-- Result of one evaluation: a stop, or a possibly-nil object together
with the updated heap. -/
abbrev Res := Except Stop (Option Obj × State)

/-- Association-list lookup for an environment's local store (the Go map
read). -/
def lookupStore : List (String × Option Obj) → String → Option (Option Obj)
  | [], _ => none
  | (m, w) :: rest, n => if m = n then some w else lookupStore rest n

/-- Association-list update for an environment's local store (the Go map
write): replace the binding if present, else append it. -/
def setStore : List (String × Option Obj) → String → Option Obj → List (String × Option Obj)
  | [], n, v => [(n, v)]
  | (m, w) :: rest, n, v => if m = n then (n, v) :: rest else (m, w) :: setStore rest n v

/-- Update the element at an index of a list in place, identity when the
index is out of range. -/
def updateAt : List α → Nat → (α → α) → List α
  | [], _, _ => []
  | x :: rest, 0, f => f x :: rest
  | x :: rest, n + 1, f => x :: updateAt rest n f

/-- Modelled from the spec: Environment.Get walks the local store, then
the outer chain (3.2).  The chain is traversed with fuel bounded by the
number of environments, which covers every acyclic chain; the evaluator
only ever creates outer pointers to already-existing environments. -/
def envGetAux (envs : List EnvData) : Nat → Nat → String → Option (Option Obj)
  | 0, _, _ => none
  | fuel + 1, id, name =>
    match envs[id]? with
    | none => none
    | some ed =>
      match lookupStore ed.store name with
      | some v => some v
      | none =>
        match ed.outer with
        | some o => envGetAux envs fuel o name
        | none => none

/-- Modelled from the spec: Environment.Get (3.2, 6.2). -/
def envGet (st : State) (id : Nat) (name : String) : Option (Option Obj) :=
  envGetAux st.envs (st.envs.length + 1) id name

/-- Modelled from the spec: Environment.Set writes to the local map
unconditionally, never walking outward (3.2, 9). -/
def envSet (st : State) (id : Nat) (name : String) (v : Option Obj) : State :=
  { st with envs := updateAt st.envs id (fun ed => { ed with store := setStore ed.store name v }) }

/-- Modelled from the spec: NewEnclosedEnvironment allocates an empty
environment whose parent is the given one (3.2, 6.2). -/
def newEnclosed (st : State) (outer : Nat) : Nat × State :=
  (st.envs.length, { st with envs := st.envs ++ [⟨[], some outer⟩] })

/-- Allocate a fresh array object on the heap. -/
def allocArray (st : State) (elems : List (Option Obj)) : Nat × State :=
  (st.arrays.length, { st with arrays := st.arrays ++ [elems] })

/-- Write one slot of an existing heap array. -/
def writeArray (st : State) (ref : Nat) (idx : Nat) (v : Option Obj) : State :=
  { st with arrays := updateAt st.arrays ref (fun xs => xs.set idx v) }

/-- The root state: a single empty global environment and no arrays. -/
def initState : State := ⟨[⟨[], none⟩], []⟩

/-- Modelled from the spec: the object package's type tags.  Only their
pairwise distinctness is relied on. -/
def typeTag : Obj → String
  | .integer _ => "INTEGER"
  | .float _ => "FLOAT"
  | .boolean _ => "BOOLEAN"
  | .str _ => "STRING"
  | .arr _ => "ARRAY"
  | .nullO => "NULL"
  | .retV _ => "RETURN_VALUE"
  | .breakO => "BREAK"
  | .continueO => "CONTINUE"
  | .errObj _ => "ERROR"
  | .fn _ _ _ => "FUNCTION"

/-- Modelled from the spec: the object package's Inspect, the textual
rendering used by switch matching.  Arrays render their elements through
the heap; the recursion depth is bounded by the heap size, which covers
every acyclic array (on a cyclic array the source diverges; the model
truncates). -/
def inspectAux (st : State) : Nat → Obj → String
  | _, .integer n => toString n
  | _, .float r => r
  | _, .boolean b => toString b
  | _, .str s => s
  | 0, .arr _ => "..."
  | fuel + 1, .arr ref =>
    "[" ++ String.intercalate ", "
      ((st.arrays.getD ref []).map (fun e =>
        match e with
        | some o => inspectAux st fuel o
        | none => "nil")) ++ "]"
  | _, .nullO => "null"
  | _, .retV _ => "return"
  | _, .breakO => "break"
  | _, .continueO => "continue"
  | _, .errObj m => m
  | _, .fn _ _ _ => "function"

/-- Inspect with fuel that suffices for every acyclic object graph. -/
def inspect (st : State) (o : Obj) : String :=
  inspectAux st (st.arrays.length + 1) o

/-- newError: the source wraps every message in the ANSI red escape
sequence before storing it in the Error object. -/
def newError (msg : String) : Obj :=
  .errObj ("\x1b[31m" ++ msg ++ "\x1b[0m")

/-- isError from the source: nil is not an error. -/
def isError : Option Obj → Bool
  | some (.errObj _) => true
  | _ => false

/-- isTruthy from the source: NULL and FALSE are the only falsy objects;
everything else, including a Go-nil result, hits the default case and is
truthy. -/
def isTruthy : Option Obj → Bool
  | some .nullO => false
  | some (.boolean b) => b
  | _ => true

/-- unwrapReturnValue from the source. -/
def unwrapReturnValue : Option Obj → Option Obj
  | some (.retV v) => v
  | o => o

/-- evalStringInfixExpression from the source. -/
def evalStringInfixExpression (op : String) (a b : String) : Obj :=
  if op = "+" then .str (a ++ b)
  else if op = "==" then .boolean (a = b)
  else if op = "!=" then .boolean (!(a = b : Bool))
  else newError ("Operesheni Haielweki: STRING " ++ op ++ " STRING")

/-- evalIntegerInfixExpression from the source.  Division and
exponentiation go through float64 arithmetic in the source and are
outside the model (Stop.floatOp); int64 wrap-around of + - * is not
modelled, no claim exercising them depends on it.  The Go % operator
truncates toward zero and panics on a zero divisor. -/
def evalIntegerInfixExpression (op : String) (a b : Int) : Except Stop Obj :=
  if op = "+" then .ok (.integer (a + b))
  else if op = "-" then .ok (.integer (a - b))
  else if op = "*" then .ok (.integer (a * b))
  else if op = "**" then .error .floatOp
  else if op = "/" then .error .floatOp
  else if op = "%" then
    if b = 0 then .error (.goPanic "integer divide by zero")
    else .ok (.integer (Int.tmod a b))
  else if op = "<" then .ok (.boolean (a < b))
  else if op = "<=" then .ok (.boolean (a ≤ b))
  else if op = ">" then .ok (.boolean (b < a))
  else if op = ">=" then .ok (.boolean (b ≤ a))
  else if op = "==" then .ok (.boolean (a = b))
  else if op = "!=" then .ok (.boolean (!(a = b : Bool)))
  else .ok (newError ("Operesheni Haielweki: INTEGER " ++ op ++ " INTEGER"))

/-- evalBooleanInfixExpression from the source. -/
def evalBooleanInfixExpression (op : String) (a b : Bool) : Obj :=
  if op = "&&" then .boolean (a && b)
  else if op = "||" then .boolean (a || b)
  else newError ("Operesheni Haielweki: BOOLEAN " ++ op ++ " BOOLEAN")

/-- Character-list prefix test, for the strings.Contains call of
evalInStringExpression. -/
def listIsPrefixOf : List Char → List Char → Bool
  | [], _ => true
  | _ :: _, [] => false
  | a :: as, b :: bs => a = b && listIsPrefixOf as bs

/-- Character-list substring test: strings.Contains(hay, needle). -/
def listContainsSub (needle : List Char) : List Char → Bool
  | [] => needle.isEmpty
  | c :: rest => listIsPrefixOf needle (c :: rest) || listContainsSub needle rest

/-- evalInStringExpression from the source: the left operand must be a
String, and containment is substring containment. -/
def evalInStringExpression (l : Obj) (hay : String) : Obj :=
  match l with
  | .str needle => .boolean (listContainsSub needle.toList hay.toList)
  | _ => .boolean false

/-- One membership scan of evalInArrayExpression: the source calls
v.Type() on each element, so a nil element is a runtime panic. -/
def memberStep (p : Obj → Bool) : List (Option Obj) → Except Stop Bool
  | [] => .ok false
  | none :: _ => .error (.goPanic "nil pointer dereference")
  | some o :: rest => if p o then .ok true else memberStep p rest

/-- evalInArrayExpression from the source: Null matches any Null
element; String, Integer and Float match elements of the same type with
equal payload; any other left operand returns FALSE without scanning. -/
def evalInArrayExpression (l : Obj) (elems : List (Option Obj)) : Except Stop Obj :=
  match l with
  | .nullO =>
    (memberStep (fun v => typeTag v = "NULL") elems).map .boolean
  | .str s =>
    (memberStep (fun v => match v with | .str t => s = t | _ => false) elems).map .boolean
  | .integer n =>
    (memberStep (fun v => match v with | .integer m => n = m | _ => false) elems).map .boolean
  | .float r =>
    (memberStep (fun v => match v with | .float q => r = q | _ => false) elems).map .boolean
  | _ => .ok (.boolean false)

/-- evalInExpression from the source; the Dict case is omitted because
no dict objects exist in the modelled fragment. -/
def evalInExpression (l r : Obj) (st : State) : Except Stop Obj :=
  match r with
  | .str hay => .ok (evalInStringExpression l hay)
  | .arr ref => evalInArrayExpression l (st.arrays.getD ref [])
  | _ => .ok (.boolean false)

/-- Identity equality of the == and != fallback cases, which compare Go
interface pointers.  The canonical singletons (NULL, BREAK, CONTINUE,
TRUE, FALSE) compare by variant, arrays by heap reference.  Values the
source allocates freshly at every evaluation (integers, floats, strings,
functions, wrappers) are modelled as never pointer-equal; no settled
claim reaches this case with such operands. -/
def goPtrEq : Obj → Obj → Bool
  | .arr a, .arr b => a = b
  | .nullO, .nullO => true
  | .breakO, .breakO => true
  | .continueO, .continueO => true
  | .boolean a, .boolean b => a = b
  | _, _ => false

/-- The array-replication loop of the source: starting from one copy,
append the original (count - 1) more times; the Go loop runs while
i > 1 counting down from the multiplier, hence (n - 1).toNat
iterations. -/
def arrayRepLoop (orig : List (Option Obj)) : Nat → List (Option Obj) → List (Option Obj)
  | 0, acc => acc
  | k + 1, acc => arrayRepLoop orig k (acc ++ orig)

/-- Wrap an integer into the signed 64-bit range, as Go int arithmetic
does on overflow. -/
def wrap64 (n : Int) : Int := (n + 2 ^ 63) % 2 ^ 64 - 2 ^ 63

/-- strings.Repeat: a zero count yields the empty string; a negative
count panics; then the library's deterministic overflow guard
len(s)*count/count != len(s) — the multiplication of the byte length in
wrapping 64-bit int arithmetic, divided back with Go's truncated
division — panics; otherwise the string repeated count times. -/
def stringsRepeat (s : String) (n : Int) : Except Stop String :=
  if n = 0 then .ok ""
  else if n < 0 then .error (.goPanic "strings: negative Repeat count")
  else if (wrap64 ((s.utf8ByteSize : Int) * n)).tdiv n ≠ (s.utf8ByteSize : Int) then
    .error (.goPanic "strings: Repeat count causes overflow")
  else .ok (String.join (List.replicate n.toNat s))

/-- evalInfixExpression from the source, with the case order of the Go
switch preserved.  A nil left operand is the "Umekosea hapa" error; a
nil right operand dereferences nil in the first case condition.  The
Dict-merge case is omitted because no dict objects exist in the modelled
fragment.  Array operations allocate the result as a fresh heap array
(the slice-aliasing of the source for small multipliers is not
observable through any settled claim). -/
def evalInfixExpression (op : String) (left right : Option Obj) (st : State) :
    Except Stop (Obj × State) :=
  match left with
  | none => .ok (newError "Umekosea hapa", st)
  | some l =>
    match right with
    | none => .error (.goPanic "nil pointer dereference")
    | some r =>
      match op, l, r with
      | op, .str a, .str b => .ok (evalStringInfixExpression op a b, st)
      | "+", .arr a, .arr b =>
        let elems := st.arrays.getD a [] ++ st.arrays.getD b []
        let (ref, st1) := allocArray st elems
        .ok (.arr ref, st1)
      | "*", .arr a, .integer n =>
        let xs := st.arrays.getD a []
        let (ref, st1) := allocArray st (arrayRepLoop xs (n - 1).toNat xs)
        .ok (.arr ref, st1)
      | "*", .integer n, .arr a =>
        let xs := st.arrays.getD a []
        let (ref, st1) := allocArray st (arrayRepLoop xs (n - 1).toNat xs)
        .ok (.arr ref, st1)
      | "*", .str s, .integer n =>
        (stringsRepeat s n).map (fun t => (.str t, st))
      | "*", .integer n, .str s =>
        (stringsRepeat s n).map (fun t => (.str t, st))
      | op, .integer a, .integer b =>
        (evalIntegerInfixExpression op a b).map (fun o => (o, st))
      | _, .float _, .float _ => .error .floatOp
      | _, .integer _, .float _ => .error .floatOp
      | _, .float _, .integer _ => .error .floatOp
      | "ktk", l, r => (evalInExpression l r st).map (fun o => (o, st))
      | "==", l, r => .ok (.boolean (goPtrEq l r), st)
      | "!=", l, r => .ok (.boolean (!goPtrEq l r), st)
      | op, .boolean a, .boolean b => .ok (evalBooleanInfixExpression op a b, st)
      | op, l, r =>
        if typeTag l ≠ typeTag r then
          .ok (newError ("Aina Hazilingani: " ++ typeTag l ++ " " ++ op ++ " " ++ typeTag r), st)
        else
          .ok (newError ("Operesheni Haielweki: " ++ typeTag l ++ " " ++ op ++ " " ++ typeTag r), st)

/-- evalArrayIndexExpression and evalIndexExpression from the source: an
Array with an Integer index reads the slot or NULL out of range; an
Array with any other index is an error; anything else (dicts do not
exist in the modelled fragment) is an error.  A nil operand
dereferences nil where the source calls Type() on it. -/
def evalIndexExpression (left index : Option Obj) (st : State) : Except Stop (Option Obj) :=
  match left with
  | none => .error (.goPanic "nil pointer dereference")
  | some (.arr ref) =>
    match index with
    | none => .error (.goPanic "nil pointer dereference")
    | some (.integer i) =>
      let xs := st.arrays.getD ref []
      if i < 0 ∨ (xs.length : Int) - 1 < i then .ok (some .nullO)
      else .ok (xs.getD i.toNat none)
    | some other => .ok (some (newError ("Tafadhali tumia number, sio: " ++ typeTag other)))
  | some l => .ok (some (newError ("Operesheni hii haiwezekani kwa: " ++ typeTag l)))

/-- The type of one evaluation level: node, environment id, heap. -/
abbrev EvalFn := Node → Nat → State → Res

/-- evalProgram from the source: statements in sequence; a ReturnValue
result is unwrapped and returned, an Error result is returned; the final
value is the last statement's result (the accumulator starts as Go
nil). -/
def evalProgramF (ev : EvalFn) (env : Nat) : List Node → Option Obj → State → Res
  | [], result, st => .ok (result, st)
  | s :: rest, _, st =>
    match ev s env st with
    | .error e => .error e
    | .ok (result, st1) =>
      match result with
      | some (.retV v) => .ok (v, st1)
      | some (.errObj m) => .ok (some (.errObj m), st1)
      | r => evalProgramF ev env rest r st1

/-- evalBlockStatement from the source: like a program, but ReturnValue,
Error, Continue and Break results are returned as-is. -/
def evalBlockF (ev : EvalFn) (env : Nat) : List Node → Option Obj → State → Res
  | [], result, st => .ok (result, st)
  | s :: rest, _, st =>
    match ev s env st with
    | .error e => .error e
    | .ok (result, st1) =>
      match result with
      | some (.retV v) => .ok (some (.retV v), st1)
      | some (.errObj m) => .ok (some (.errObj m), st1)
      | some .continueO => .ok (some .continueO, st1)
      | some .breakO => .ok (some .breakO, st1)
      | r => evalBlockF ev env rest r st1

/-- evalExpressions from the source: left to right; on the first Error
the result list collapses to that single error. -/
def evalExpressionsF (ev : EvalFn) (env : Nat) :
    List Node → State → Except Stop (List (Option Obj) × State)
  | [], st => .ok ([], st)
  | e :: rest, st =>
    match ev e env st with
    | .error s => .error s
    | .ok (evaluated, st1) =>
      if isError evaluated then .ok ([evaluated], st1)
      else
        match evalExpressionsF ev env rest st1 with
        | .error s => .error s
        | .ok (others, st2) => .ok (evaluated :: others, st2)

/-- The parameter-binding loop of extendedFunctionEnv: positional, stops
at the shorter list (extra arguments ignored, missing ones left
unbound). -/
def bindParams : State → Nat → List String → List (Option Obj) → State
  | st, _, [], _ => st
  | st, _, _ :: _, [] => st
  | st, envId, p :: ps, a :: as => bindParams (envSet st envId p a) envId ps as

/-- extendedFunctionEnv from the source. -/
def extendFunctionEnv (st : State) (fenv : Nat) (params : List String)
    (args : List (Option Obj)) : Nat × State :=
  let (e, st1) := newEnclosed st fenv
  (e, bindParams st1 e params args)

/-- applyFunction from the source.  The Builtin case is unreachable in
the modelled fragment (the registry is empty); a nil callee
dereferences nil in the default case's Type() call. -/
def applyFunctionF (ev : EvalFn) (f : Option Obj) (args : List (Option Obj)) (st : State) : Res :=
  match f with
  | some (.fn params body fenv) =>
    let (e, st1) := extendFunctionEnv st fenv params args
    match ev body e st1 with
    | .error s => .error s
    | .ok (evaluated, st2) => .ok (unwrapReturnValue evaluated, st2)
  | some other => .ok (some (newError ("Hii sio function: " ++ typeTag other)), st)
  | none => .error (.goPanic "nil pointer dereference")

/-- evalWhileExpression from the source, including its quirk: after the
recursive call for the next iteration, the recursive result is
discarded and NULL is returned (only a first-iteration Error or BREAK
escapes, and a ReturnValue never does). -/
def evalWhileF (ev : EvalFn) (c b : Node) (env : Nat) (st : State) : Res :=
  match ev c env st with
  | .error s => .error s
  | .ok (condition, st1) =>
    if isError condition then .ok (condition, st1)
    else if isTruthy condition then
      match ev b env st1 with
      | .error s => .error s
      | .ok (evaluated, st2) =>
        if isError evaluated then .ok (evaluated, st2)
        else
          match evaluated with
          | some .breakO => .ok (some .breakO, st2)
          | _ =>
            match ev (.whileE c b) env st2 with
            | .error s => .error s
            | .ok (_, st3) => .ok (some .nullO, st3)
    else .ok (some .nullO, st1)

/-- The matching condition of evalSwitchStatement: runtime type tag and
textual inspection both equal. -/
def switchMatch (st : State) (a b : Obj) : Bool :=
  typeTag a = typeTag b && inspect st a = inspect st b

/-- The inner candidate loop of evalSwitchStatement for one clause: each
candidate expression is evaluated (with no error check); on a match the
clause's block runs and its result is returned.  Type() is called on
both the scrutinee and the candidate, so a nil on either side is a
runtime panic. -/
def evalSwitchExprsF (ev : EvalFn) (ob : Option Obj) (blk : List Node) (env : Nat) :
    List Node → State → Except Stop (Option (Option Obj) × State)
  | [], st => .ok (none, st)
  | e :: rest, st =>
    match ev e env st with
    | .error s => .error s
    | .ok (out, st1) =>
      match ob, out with
      | some o1, some o2 =>
        if switchMatch st1 o1 o2 then
          match evalBlockF ev env blk none st1 with
          | .error s => .error s
          | .ok (r, st2) => .ok (some r, st2)
        else evalSwitchExprsF ev ob blk env rest st1
      | _, _ => .error (.goPanic "nil pointer dereference")

/-- The first loop of evalSwitchStatement: non-default clauses in order. -/
def evalSwitchChoicesF (ev : EvalFn) (ob : Option Obj) (env : Nat) :
    List (Bool × List Node × List Node) → State → Except Stop (Option (Option Obj) × State)
  | [], st => .ok (none, st)
  | (isDef, exprs, blk) :: rest, st =>
    if isDef then evalSwitchChoicesF ev ob env rest st
    else
      match evalSwitchExprsF ev ob blk env exprs st with
      | .error s => .error s
      | .ok (some r, st1) => .ok (some r, st1)
      | .ok (none, st1) => evalSwitchChoicesF ev ob env rest st1

/-- The second loop of evalSwitchStatement: run the first default
clause's block. -/
def evalSwitchDefaultF (ev : EvalFn) (env : Nat) :
    List (Bool × List Node × List Node) → State → Res
  | [], st => .ok (none, st)
  | (isDef, _, blk) :: rest, st =>
    if isDef then evalBlockF ev env blk none st
    else evalSwitchDefaultF ev env rest st

/-- evalSwitchStatement from the source: evaluate the scrutinee (with no
error check), try non-default clauses in order, then the first default
clause, else return nil. -/
def evalSwitchF (ev : EvalFn) (v : Node) (choices : List (Bool × List Node × List Node))
    (env : Nat) (st : State) : Res :=
  match ev v env st with
  | .error s => .error s
  | .ok (ob, st1) =>
    match evalSwitchChoicesF ev ob env choices st1 with
    | .error s => .error s
    | .ok (some r, st2) => .ok (r, st2)
    | .ok (none, st2) => evalSwitchDefaultF ev env choices st2

/-- Modelled from the spec: the Array iterator yields (index, element)
pairs (3.1); the Go loop in loopIterable stops as soon as Next yields a
nil component, so iteration stops at the first nil element. -/
def iterPairsArr : List (Option Obj) → Int → List (Obj × Obj)
  | [], _ => []
  | some x :: rest, i => (.integer i, x) :: iterPairsArr rest (i + 1)
  | none :: _, _ => []

/-- Modelled from the spec: the String iterator yields (index,
one-character string) pairs (3.1). -/
def iterPairsStr : List Char → Int → List (Obj × Obj)
  | [], _ => []
  | c :: rest, i => (.integer i, .str (String.mk [c])) :: iterPairsStr rest (i + 1)

/-- loopIterable from the source: bind the key and value names in the
current environment, evaluate the block; an Error or ReturnValue is
returned, BREAK leaves the loop (yielding NULL), CONTINUE and anything
else advance. -/
def loopIterableF (ev : EvalFn) (k v : String) (body : Node) (env : Nat) :
    List (Obj × Obj) → State → Res
  | [], st => .ok (some .nullO, st)
  | (ko, vo) :: rest, st =>
    let st1 := envSet (envSet st env k (some ko)) env v (some vo)
    match ev body env st1 with
    | .error s => .error s
    | .ok (res, st2) =>
      if isError res then .ok (res, st2)
      else
        match res with
        | some .breakO => .ok (some .nullO, st2)
        | some .continueO => loopIterableF ev k v body env rest st2
        | some (.retV w) => .ok (some (.retV w), st2)
        | _ => loopIterableF ev k v body env rest st2

/-- evalForInExpression from the source: evaluate the iterable (with no
error check), save the chain lookups of the two iteration names, run the
loop for an iterable value (an Error value is not an Iterable, so it
falls to the not-iterable error; a nil dereferences in the Type() call
of that error path), then restore the saved bindings into the current
environment, key first.  The deferred Reset has no observable effect in
the functional iterator model.  (The source's defer would also restore
during a panic; a panic aborts evaluation, so the model drops the
restore there.) -/
def evalForInF (ev : EvalFn) (k v : String) (iterN body : Node) (env : Nat) (st : State) : Res :=
  match ev iterN env st with
  | .error s => .error s
  | .ok (iterable, st1) =>
    let savedK := envGet st1 env k
    let savedV := envGet st1 env v
    let inner : Res :=
      match iterable with
      | some (.arr ref) =>
        loopIterableF ev k v body env (iterPairsArr (st1.arrays.getD ref []) 0) st1
      | some (.str s) =>
        loopIterableF ev k v body env (iterPairsStr s.toList 0) st1
      | some other => .ok (some (newError ("Huwezi kufanya operesheni hii na " ++ typeTag other)), st1)
      | none => .error (.goPanic "nil pointer dereference")
    match inner with
    | .error s => .error s
    | .ok (res, st2) =>
      let st3 := match savedK with | some w => envSet st2 env k w | none => st2
      let st4 := match savedV with | some w => envSet st3 env v w | none => st3
      .ok (res, st4)

/-- The store phase of the AssignmentExpression case of Eval: store to
an identifier, or through an index expression into an array (the bounds
check rejects index > length only, and the slot write panics when the
index is not within range), else error.  Dict targets do not exist in
the modelled fragment. -/
def assignStoreF (ev : EvalFn) (leftN : Node) (value : Option Obj) (env : Nat) (st3 : State) : Res :=
  match leftN with
  | .ident name => .ok (none, envSet st3 env name value)
  | .indexE il ii =>
    match ev il env st3 with
    | .error s => .error s
    | .ok (obj, st4) =>
      if isError obj then .ok (obj, st4)
      else
        match obj with
        | some (.arr ref) =>
          match ev ii env st4 with
          | .error s => .error s
          | .ok (index, st5) =>
            if isError index then .ok (index, st5)
            else
              match index with
              | some (.integer idx) =>
                let xs := st5.arrays.getD ref []
                if (xs.length : Int) < idx then
                  .ok (some (newError "Index imezidi idadi ya elements"), st5)
                else if 0 ≤ idx ∧ idx < (xs.length : Int) then
                  .ok (none, writeArray st5 ref idx.toNat value)
                else .error (.goPanic "index out of range")
              | _ =>
                .ok (some (newError "Hauwezi kufanya opereshen hii na index hii"), st5)
        | _ => .ok (some (newError "Aina hii haifanyi operation hii"), st4)
  | _ => .ok (some (newError "Tumia neno kama variable"), st3)

/-- The AssignmentExpression case of Eval from the source: evaluate the
left side, then the value; fold a compound operator through the infix
engine; then store.  On success the case falls through to Eval's final
return nil. -/
def evalAssignF (ev : EvalFn) (leftN : Node) (opLit : String) (valueN : Node)
    (env : Nat) (st : State) : Res :=
  match ev leftN env st with
  | .error s => .error s
  | .ok (left, st1) =>
    if isError left then .ok (left, st1)
    else
      match ev valueN env st1 with
      | .error s => .error s
      | .ok (value0, st2) =>
        if isError value0 then .ok (value0, st2)
        else
          let folded : Except Stop (Option Obj × State) :=
            if 2 ≤ opLit.length then
              match evalInfixExpression (opLit.dropRight 1) left value0 st2 with
              | .error s => .error s
              | .ok (w, st3) => .ok (some w, st3)
            else .ok (value0, st2)
          match folded with
          | .error s => .error s
          | .ok (value, st3) =>
            if isError value then .ok (value, st3)
            else assignStoreF ev leftN value env st3

/-- Modelled from the spec: the builtin registry (6.3) is an external
read-only table; no claim depends on any particular builtin, so it is
left empty. -/
def builtins : List (String × Obj) := []

/-- evalIdentifier from the source: environment chain first, then the
builtin registry, else the unknown-name error. -/
def evalIdentifierF (name : String) (env : Nat) (st : State) : Option Obj :=
  match envGet st env name with
  | some v => v
  | none =>
    match builtins.find? (fun p => p.1 = name) with
    | some p => some p.2
    | none => some (newError ("Neno Halifahamiki: " ++ name))

/-- Eval from the source: the recursive dispatch on node kinds.  The
fuel argument makes the Go recursion structural; every recursive
evaluation level consumes one unit, and Stop.fuel marks exhaustion.
Semantics at sufficient fuel match the source. -/
def Eval : Nat → Node → Nat → State → Res
  | 0, _, _, _ => .error .fuel
  | fuel + 1, node, env, st =>
    match node with
    | .program stmts => evalProgramF (Eval fuel) env stmts none st
    | .exprStmt e => Eval fuel e env st
    | .integerLit n => .ok (some (.integer n), st)
    | .floatLit r => .ok (some (.float r), st)
    | .booleanLit b => .ok (some (.boolean b), st)
    | .stringLit s => .ok (some (.str s), st)
    | .arrayLit elts =>
      match evalExpressionsF (Eval fuel) env elts st with
      | .error s => .error s
      | .ok (elems, st1) =>
        if elems.length = 1 ∧ isError (elems.getD 0 none) then .ok (elems.getD 0 none, st1)
        else
          let (ref, st2) := allocArray st1 elems
          .ok (some (.arr ref), st2)
    | .ident name => .ok (evalIdentifierF name env st, st)
    | .binE op l r =>
      match Eval fuel l env st with
      | .error s => .error s
      | .ok (left, st1) =>
        if isError left then .ok (left, st1)
        else
          match Eval fuel r env st1 with
          | .error s => .error s
          | .ok (right, st2) =>
            if isError right then .ok (right, st2)
            else
              match evalInfixExpression op left right st2 with
              | .error s => .error s
              | .ok (o, st3) => .ok (some o, st3)
    | .ifE c cons alt =>
      match Eval fuel c env st with
      | .error s => .error s
      | .ok (condition, st1) =>
        if isError condition then .ok (condition, st1)
        else if isTruthy condition then Eval fuel cons env st1
        else
          match alt with
          | some a => Eval fuel a env st1
          | none => .ok (some .nullO, st1)
    | .block stmts => evalBlockF (Eval fuel) env stmts none st
    | .whileE c b => evalWhileF (Eval fuel) c b env st
    | .breakE => .ok (some .breakO, st)
    | .continueE => .ok (some .continueO, st)
    | .ret e =>
      match Eval fuel e env st with
      | .error s => .error s
      | .ok (val, st1) =>
        if isError val then .ok (val, st1)
        else .ok (some (.retV val), st1)
    | .letS name valueN =>
      match Eval fuel valueN env st with
      | .error s => .error s
      | .ok (val, st1) =>
        if isError val then .ok (val, st1)
        else .ok (none, envSet st1 env name val)
    | .funcLit params body => .ok (some (.fn params body env), st)
    | .call fnN args =>
      match Eval fuel fnN env st with
      | .error s => .error s
      | .ok (f, st1) =>
        if isError f then .ok (f, st1)
        else
          match evalExpressionsF (Eval fuel) env args st1 with
          | .error s => .error s
          | .ok (argvs, st2) =>
            if argvs.length = 1 ∧ isError (argvs.getD 0 none) then .ok (argvs.getD 0 none, st2)
            else applyFunctionF (Eval fuel) f argvs st2
    | .indexE l i =>
      match Eval fuel l env st with
      | .error s => .error s
      | .ok (left, st1) =>
        if isError left then .ok (left, st1)
        else
          match Eval fuel i env st1 with
          | .error s => .error s
          | .ok (index, st2) =>
            if isError index then .ok (index, st2)
            else
              match evalIndexExpression left index st2 with
              | .error s => .error s
              | .ok r => .ok (r, st2)
    | .assign leftN opLit valueN => evalAssignF (Eval fuel) leftN opLit valueN env st
    | .switchE v choices => evalSwitchF (Eval fuel) v choices env st
    | .forIn k v iterN body => evalForInF (Eval fuel) k v iterN body env st
    | .nullLit => .ok (some .nullO, st)

/-- Run a program from the root state and keep only the result object. -/
def run (fuel : Nat) (p : Node) : Except Stop (Option Obj) :=
  (Eval fuel p 0 initState).map (fun r => r.1)

theorem lookupStore_setStore_self (s : List (String × Option Obj)) (n : String) (w : Option Obj) :
    lookupStore (setStore s n w) n = some w := by
  induction s with
  | nil => simp [setStore, lookupStore]
  | cons p rest ih =>
    obtain ⟨m, x⟩ := p
    by_cases h : m = n
    · simp [setStore, h, lookupStore]
    · simp [setStore, h, lookupStore, ih]

theorem lookupStore_setStore_other {m n : String} (hmn : m ≠ n)
    (s : List (String × Option Obj)) (w : Option Obj) :
    lookupStore (setStore s n w) m = lookupStore s m := by
  induction s with
  | nil => simp [setStore, lookupStore, Ne.symm hmn]
  | cons p rest ih =>
    obtain ⟨q, x⟩ := p
    by_cases h : q = n
    · subst h
      simp [setStore, lookupStore, Ne.symm hmn]
    · simp [setStore, h, lookupStore, ih]

theorem updateAt_length (l : List α) (i : Nat) (f : α → α) :
    (updateAt l i f).length = l.length := by
  induction l generalizing i with
  | nil => simp [updateAt]
  | cons x rest ih =>
    cases i with
    | zero => simp [updateAt]
    | succ j => simp [updateAt, ih]

theorem getElem?_updateAt_self (l : List α) (i : Nat) (f : α → α) (x : α)
    (h : l[i]? = some x) : (updateAt l i f)[i]? = some (f x) := by
  induction l generalizing i with
  | nil => simp at h
  | cons y rest ih =>
    cases i with
    | zero =>
      simp at h
      subst h
      simp [updateAt]
    | succ j =>
      simp at h
      simp [updateAt, ih j h]

theorem envSet_envs_length (st : State) (id : Nat) (n : String) (w : Option Obj) :
    (envSet st id n w).envs.length = st.envs.length := by
  simp [envSet, updateAt_length]

theorem envGet_local (st : State) (id : Nat) (ed : EnvData) (nm : String) (w : Option Obj)
    (h1 : st.envs[id]? = some ed) (h2 : lookupStore ed.store nm = some w) :
    envGet st id nm = some w := by
  simp [envGet, envGetAux, h1, h2]

theorem arrayRepLoop_eq (orig : List (Option Obj)) (k : Nat) (acc : List (Option Obj)) :
    arrayRepLoop orig k acc = acc ++ List.flatten (List.replicate k orig) := by
  induction k generalizing acc with
  | zero => simp [arrayRepLoop]
  | succ k ih => simp [arrayRepLoop, ih, List.replicate_succ, List.append_assoc]

theorem arrayRepLoop_maxCopies (xs : List (Option Obj)) (m : Int) :
    arrayRepLoop xs (m - 1).toNat xs = List.flatten (List.replicate (max 1 m).toNat xs) := by
  rw [arrayRepLoop_eq]
  have h : (max 1 m).toNat = (m - 1).toNat + 1 := by omega
  rw [h, List.replicate_succ]
  simp

theorem map_const_state {A : Type} (x : Except Stop A) (g : A → Obj) (st : State)
    (o : Obj) (st2 : State) (h : x.map (fun t => (g t, st)) = .ok (o, st2)) : st2 = st := by
  cases x with
  | error s => simp [Except.map] at h
  | ok a => simp [Except.map] at h; exact h.2.symm

set_option maxHeartbeats 1000000 in
theorem evalInfixExpression_envs (op : String) (left right : Option Obj) (st : State)
    (o : Obj) (st2 : State) (h : evalInfixExpression op left right st = .ok (o, st2)) :
    st2.envs = st.envs := by
  cases left with
  | none =>
    simp only [evalInfixExpression, Except.ok.injEq, Prod.mk.injEq] at h
    rw [← h.2]
  | some l =>
    cases right with
    | none =>
      simp only [evalInfixExpression] at h
      exact absurd h (by simp)
    | some r =>
      simp only [evalInfixExpression] at h
      split at h
      all_goals try split at h
      all_goals
        first
          | (simp only [Except.ok.injEq, Prod.mk.injEq] at h
             rw [← h.2]
             try rfl)
          | (rw [map_const_state _ _ _ _ _ h])
          | simp at h

/-- The environment heap only ever grows: an evaluation step never
removes an environment.  This frame property of the evaluator backs the
for-in restore theorem. -/
def EnvsMono (ev : EvalFn) : Prop :=
  ∀ nd env st r st2, ev nd env st = .ok (r, st2) → st.envs.length ≤ st2.envs.length

theorem writeArray_envs (st : State) (ref idx : Nat) (v : Option Obj) :
    (writeArray st ref idx v).envs = st.envs := rfl

theorem restore_length (st : State) (env : Nat) (k : String) (saved : Option (Option Obj)) :
    (match saved with | some w => envSet st env k w | none => st).envs.length = st.envs.length := by
  cases saved <;> simp [envSet_envs_length]

theorem bindParams_length : ∀ (ps : List String) (args : List (Option Obj)) (st : State) (id : Nat),
    (bindParams st id ps args).envs.length = st.envs.length := by
  intro ps
  induction ps with
  | nil => intro args st id; cases args <;> simp [bindParams]
  | cons p ps ih =>
    intro args st id
    cases args with
    | nil => simp [bindParams]
    | cons a as => simp [bindParams, ih, envSet_envs_length]

theorem extendFunctionEnv_length (st : State) (fenv : Nat) (params : List String)
    (args : List (Option Obj)) :
    (extendFunctionEnv st fenv params args).2.envs.length = st.envs.length + 1 := by
  simp [extendFunctionEnv, newEnclosed, bindParams_length]

theorem evalProgramF_mono (ev : EvalFn) (hev : EnvsMono ev) (env : Nat) :
    ∀ (stmts : List Node) (r0 r : Option Obj) (st st2 : State),
      evalProgramF ev env stmts r0 st = .ok (r, st2) → st.envs.length ≤ st2.envs.length := by
  intro stmts
  induction stmts with
  | nil =>
    intro r0 r st st2 h
    simp only [evalProgramF, Except.ok.injEq, Prod.mk.injEq] at h
    obtain ⟨h1, h2⟩ := h
    subst h2
    exact Nat.le_refl _
  | cons s rest ih =>
    intro r0 r st st2 h
    cases he : ev s env st with
    | error e =>
      simp only [evalProgramF, he] at h
      exact Except.noConfusion h
    | ok p =>
      obtain ⟨r1, st1⟩ := p
      simp only [evalProgramF, he] at h
      have h1 : st.envs.length ≤ st1.envs.length := hev s env st r1 st1 he
      split at h
      · simp only [Except.ok.injEq, Prod.mk.injEq] at h
        obtain ⟨ha, hb⟩ := h; subst hb; exact h1
      · simp only [Except.ok.injEq, Prod.mk.injEq] at h
        obtain ⟨ha, hb⟩ := h; subst hb; exact h1
      · exact Nat.le_trans h1 (ih _ _ _ _ h)

theorem evalBlockF_mono (ev : EvalFn) (hev : EnvsMono ev) (env : Nat) :
    ∀ (stmts : List Node) (r0 r : Option Obj) (st st2 : State),
      evalBlockF ev env stmts r0 st = .ok (r, st2) → st.envs.length ≤ st2.envs.length := by
  intro stmts
  induction stmts with
  | nil =>
    intro r0 r st st2 h
    simp only [evalBlockF, Except.ok.injEq, Prod.mk.injEq] at h
    obtain ⟨h1, h2⟩ := h
    subst h2
    exact Nat.le_refl _
  | cons s rest ih =>
    intro r0 r st st2 h
    cases he : ev s env st with
    | error e =>
      simp only [evalBlockF, he] at h
      exact Except.noConfusion h
    | ok p =>
      obtain ⟨r1, st1⟩ := p
      simp only [evalBlockF, he] at h
      have h1 : st.envs.length ≤ st1.envs.length := hev s env st r1 st1 he
      split at h
      all_goals first
        | (simp only [Except.ok.injEq, Prod.mk.injEq] at h
           obtain ⟨ha, hb⟩ := h; subst hb; exact h1)
        | exact Nat.le_trans h1 (ih _ _ _ _ h)

theorem evalExpressionsF_mono (ev : EvalFn) (hev : EnvsMono ev) (env : Nat) :
    ∀ (es : List Node) (st : State) (vs : List (Option Obj)) (st2 : State),
      evalExpressionsF ev env es st = .ok (vs, st2) → st.envs.length ≤ st2.envs.length := by
  intro es
  induction es with
  | nil =>
    intro st vs st2 h
    simp only [evalExpressionsF, Except.ok.injEq, Prod.mk.injEq] at h
    obtain ⟨h1, h2⟩ := h
    subst h2
    exact Nat.le_refl _
  | cons e rest ih =>
    intro st vs st2 h
    cases he : ev e env st with
    | error s =>
      simp only [evalExpressionsF, he] at h
      exact Except.noConfusion h
    | ok p =>
      obtain ⟨v1, st1⟩ := p
      simp only [evalExpressionsF, he] at h
      have h1 : st.envs.length ≤ st1.envs.length := hev e env st v1 st1 he
      split at h
      · simp only [Except.ok.injEq, Prod.mk.injEq] at h
        obtain ⟨ha, hb⟩ := h; subst hb; exact h1
      · cases hr : evalExpressionsF ev env rest st1 with
        | error s =>
          simp only [hr] at h
          exact Except.noConfusion h
        | ok q =>
          obtain ⟨vs1, st3⟩ := q
          simp only [hr, Except.ok.injEq, Prod.mk.injEq] at h
          obtain ⟨ha, hb⟩ := h
          subst hb
          exact Nat.le_trans h1 (ih _ _ _ hr)

theorem applyFunctionF_mono (ev : EvalFn) (hev : EnvsMono ev) :
    ∀ (f : Option Obj) (args : List (Option Obj)) (st : State) (r : Option Obj) (st2 : State),
      applyFunctionF ev f args st = .ok (r, st2) → st.envs.length ≤ st2.envs.length := by
  intro f args st r st2 h
  cases f with
  | none =>
    simp only [applyFunctionF] at h
    exact Except.noConfusion h
  | some o =>
    cases o
    case fn params body fenv =>
      rcases hx : extendFunctionEnv st fenv params args with ⟨e1, st1⟩
      simp only [applyFunctionF, hx] at h
      cases he : ev body e1 st1 with
      | error s =>
        simp only [he] at h
        exact Except.noConfusion h
      | ok q =>
        obtain ⟨rv, st3⟩ := q
        simp only [he, Except.ok.injEq, Prod.mk.injEq] at h
        obtain ⟨ha, hb⟩ := h
        subst hb
        have hl : st1.envs.length = st.envs.length + 1 := by
          have hthis := extendFunctionEnv_length st fenv params args
          rw [hx] at hthis
          exact hthis
        have h2 := hev body e1 st1 rv st3 he
        omega
    all_goals
      (simp only [applyFunctionF, Except.ok.injEq, Prod.mk.injEq] at h
       obtain ⟨ha, hb⟩ := h
       subst hb
       exact Nat.le_refl _)

theorem evalWhileF_mono (ev : EvalFn) (hev : EnvsMono ev) (c b : Node) (env : Nat) :
    ∀ (st : State) (r : Option Obj) (st2 : State),
      evalWhileF ev c b env st = .ok (r, st2) → st.envs.length ≤ st2.envs.length := by
  intro st r st2 h
  cases h1 : ev c env st with
  | error s =>
    simp only [evalWhileF, h1] at h
    exact Except.noConfusion h
  | ok p =>
    obtain ⟨cond, st1⟩ := p
    simp only [evalWhileF, h1] at h
    have l1 := hev c env st cond st1 h1
    split at h
    · simp only [Except.ok.injEq, Prod.mk.injEq] at h
      obtain ⟨ha, hb⟩ := h; subst hb; exact l1
    · split at h
      · cases h2 : ev b env st1 with
        | error s =>
          simp only [h2] at h
          exact Except.noConfusion h
        | ok q =>
          obtain ⟨ev1, st3⟩ := q
          simp only [h2] at h
          have l2 := hev b env st1 ev1 st3 h2
          split at h
          · simp only [Except.ok.injEq, Prod.mk.injEq] at h
            obtain ⟨ha, hb⟩ := h; subst hb; omega
          · split at h
            · simp only [Except.ok.injEq, Prod.mk.injEq] at h
              obtain ⟨ha, hb⟩ := h; subst hb; omega
            · cases h3 : ev (.whileE c b) env st3 with
              | error s =>
                simp only [h3] at h
                exact Except.noConfusion h
              | ok q2 =>
                obtain ⟨r4, st4⟩ := q2
                simp only [h3, Except.ok.injEq, Prod.mk.injEq] at h
                obtain ⟨ha, hb⟩ := h
                subst hb
                have l3 := hev _ env st3 r4 st4 h3
                omega
      · simp only [Except.ok.injEq, Prod.mk.injEq] at h
        obtain ⟨ha, hb⟩ := h; subst hb; exact l1

theorem evalSwitchExprsF_mono (ev : EvalFn) (hev : EnvsMono ev) (ob : Option Obj)
    (blk : List Node) (env : Nat) :
    ∀ (exprs : List Node) (st : State) (res : Option (Option Obj)) (st2 : State),
      evalSwitchExprsF ev ob blk env exprs st = .ok (res, st2) →
      st.envs.length ≤ st2.envs.length := by
  intro exprs
  induction exprs with
  | nil =>
    intro st res st2 h
    simp only [evalSwitchExprsF, Except.ok.injEq, Prod.mk.injEq] at h
    obtain ⟨h1, h2⟩ := h
    subst h2
    exact Nat.le_refl _
  | cons e rest ih =>
    intro st res st2 h
    cases he : ev e env st with
    | error s =>
      simp only [evalSwitchExprsF, he] at h
      exact Except.noConfusion h
    | ok p =>
      obtain ⟨out, st1⟩ := p
      simp only [evalSwitchExprsF, he] at h
      have h1 := hev e env st out st1 he
      split at h
      · split at h
        · cases hb : evalBlockF ev env blk none st1 with
          | error s =>
            simp only [hb] at h
            exact Except.noConfusion h
          | ok q =>
            obtain ⟨rb, st3⟩ := q
            simp only [hb, Except.ok.injEq, Prod.mk.injEq] at h
            obtain ⟨ha, hc⟩ := h
            subst hc
            exact Nat.le_trans h1 (evalBlockF_mono ev hev env blk none rb st1 st3 hb)
        · exact Nat.le_trans h1 (ih _ _ _ h)
      · exact Except.noConfusion h

theorem evalSwitchChoicesF_mono (ev : EvalFn) (hev : EnvsMono ev) (ob : Option Obj) (env : Nat) :
    ∀ (choices : List (Bool × List Node × List Node)) (st : State)
      (res : Option (Option Obj)) (st2 : State),
      evalSwitchChoicesF ev ob env choices st = .ok (res, st2) →
      st.envs.length ≤ st2.envs.length := by
  intro choices
  induction choices with
  | nil =>
    intro st res st2 h
    simp only [evalSwitchChoicesF, Except.ok.injEq, Prod.mk.injEq] at h
    obtain ⟨h1, h2⟩ := h
    subst h2
    exact Nat.le_refl _
  | cons ch rest ih =>
    intro st res st2 h
    obtain ⟨isDef, exprs, blk⟩ := ch
    simp only [evalSwitchChoicesF] at h
    split at h
    · exact ih _ _ _ h
    · cases hx : evalSwitchExprsF ev ob blk env exprs st with
      | error s =>
        simp only [hx] at h
        exact Except.noConfusion h
      | ok q =>
        obtain ⟨found, st1⟩ := q
        simp only [hx] at h
        have h1 := evalSwitchExprsF_mono ev hev ob blk env exprs st found st1 hx
        cases found with
        | some r1 =>
          simp only [Except.ok.injEq, Prod.mk.injEq] at h
          obtain ⟨ha, hb⟩ := h
          subst hb
          exact h1
        | none => exact Nat.le_trans h1 (ih _ _ _ h)

theorem evalSwitchDefaultF_mono (ev : EvalFn) (hev : EnvsMono ev) (env : Nat) :
    ∀ (choices : List (Bool × List Node × List Node)) (st : State)
      (r : Option Obj) (st2 : State),
      evalSwitchDefaultF ev env choices st = .ok (r, st2) →
      st.envs.length ≤ st2.envs.length := by
  intro choices
  induction choices with
  | nil =>
    intro st r st2 h
    simp only [evalSwitchDefaultF, Except.ok.injEq, Prod.mk.injEq] at h
    obtain ⟨h1, h2⟩ := h
    subst h2
    exact Nat.le_refl _
  | cons ch rest ih =>
    intro st r st2 h
    obtain ⟨isDef, exprs, blk⟩ := ch
    simp only [evalSwitchDefaultF] at h
    split at h
    · exact evalBlockF_mono ev hev env blk none r st st2 h
    · exact ih _ _ _ h

theorem evalSwitchF_mono (ev : EvalFn) (hev : EnvsMono ev) (v : Node)
    (choices : List (Bool × List Node × List Node)) (env : Nat) :
    ∀ (st : State) (r : Option Obj) (st2 : State),
      evalSwitchF ev v choices env st = .ok (r, st2) → st.envs.length ≤ st2.envs.length := by
  intro st r st2 h
  cases hv : ev v env st with
  | error s =>
    simp only [evalSwitchF, hv] at h
    exact Except.noConfusion h
  | ok p =>
    obtain ⟨ob, st1⟩ := p
    simp only [evalSwitchF, hv] at h
    have h1 := hev v env st ob st1 hv
    cases hc : evalSwitchChoicesF ev ob env choices st1 with
    | error s =>
      simp only [hc] at h
      exact Except.noConfusion h
    | ok q =>
      obtain ⟨found, st3⟩ := q
      simp only [hc] at h
      have h2 := evalSwitchChoicesF_mono ev hev ob env choices st1 found st3 hc
      cases found with
      | some r1 =>
        simp only [Except.ok.injEq, Prod.mk.injEq] at h
        obtain ⟨ha, hb⟩ := h
        subst hb
        omega
      | none =>
        exact Nat.le_trans h1 (Nat.le_trans h2
          (evalSwitchDefaultF_mono ev hev env choices st3 r st2 h))

theorem loopIterableF_mono (ev : EvalFn) (hev : EnvsMono ev) (k v : String)
    (body : Node) (env : Nat) :
    ∀ (pairs : List (Obj × Obj)) (st : State) (r : Option Obj) (st2 : State),
      loopIterableF ev k v body env pairs st = .ok (r, st2) →
      st.envs.length ≤ st2.envs.length := by
  intro pairs
  induction pairs with
  | nil =>
    intro st r st2 h
    simp only [loopIterableF, Except.ok.injEq, Prod.mk.injEq] at h
    obtain ⟨h1, h2⟩ := h
    subst h2
    exact Nat.le_refl _
  | cons p rest ih =>
    intro st r st2 h
    obtain ⟨ko, vo⟩ := p
    simp only [loopIterableF] at h
    cases hb : ev body env (envSet (envSet st env k (some ko)) env v (some vo)) with
    | error s =>
      simp only [hb] at h
      exact Except.noConfusion h
    | ok q =>
      obtain ⟨res, st1⟩ := q
      simp only [hb] at h
      have h1 := hev _ _ _ _ _ hb
      have hL : st.envs.length ≤ st1.envs.length := by
        rw [envSet_envs_length, envSet_envs_length] at h1
        exact h1
      split at h
      · simp only [Except.ok.injEq, Prod.mk.injEq] at h
        obtain ⟨ha, hc⟩ := h; subst hc; exact hL
      · split at h
        all_goals first
          | (simp only [Except.ok.injEq, Prod.mk.injEq] at h
             obtain ⟨ha, hc⟩ := h; subst hc; exact hL)
          | exact Nat.le_trans hL (ih _ _ _ h)

theorem evalForInF_mono (ev : EvalFn) (hev : EnvsMono ev) (k v : String)
    (iterN body : Node) (env : Nat) :
    ∀ (st : State) (r : Option Obj) (st2 : State),
      evalForInF ev k v iterN body env st = .ok (r, st2) →
      st.envs.length ≤ st2.envs.length := by
  intro st r st2 h
  cases hi : ev iterN env st with
  | error s =>
    simp only [evalForInF, hi] at h
    exact Except.noConfusion h
  | ok p =>
    obtain ⟨iterable, st1⟩ := p
    simp only [evalForInF, hi] at h
    have h1 := hev iterN env st iterable st1 hi
    cases iterable with
    | none => simp at h
    | some o =>
      cases o
      case arr ref =>
        cases hl : loopIterableF ev k v body env (iterPairsArr (st1.arrays.getD ref []) 0) st1 with
        | error s => simp only [hl] at h; exact Except.noConfusion h
        | ok q =>
          obtain ⟨res, stL⟩ := q
          simp only [hl, Except.ok.injEq, Prod.mk.injEq] at h
          obtain ⟨ha, hb⟩ := h
          subst hb
          have h2 := loopIterableF_mono ev hev k v body env _ st1 res stL hl
          rw [restore_length, restore_length]
          omega
      case str s =>
        cases hl : loopIterableF ev k v body env (iterPairsStr s.toList 0) st1 with
        | error s2 => simp only [hl] at h; exact Except.noConfusion h
        | ok q =>
          obtain ⟨res, stL⟩ := q
          simp only [hl, Except.ok.injEq, Prod.mk.injEq] at h
          obtain ⟨ha, hb⟩ := h
          subst hb
          have h2 := loopIterableF_mono ev hev k v body env _ st1 res stL hl
          rw [restore_length, restore_length]
          omega
      all_goals
        (simp only [Except.ok.injEq, Prod.mk.injEq] at h
         obtain ⟨ha, hb⟩ := h
         subst hb
         rw [restore_length, restore_length]
         omega)

theorem assignStoreF_mono (ev : EvalFn) (hev : EnvsMono ev) (leftN : Node)
    (value : Option Obj) (env : Nat) :
    ∀ (st3 : State) (r : Option Obj) (st2 : State),
      assignStoreF ev leftN value env st3 = .ok (r, st2) →
      st3.envs.length ≤ st2.envs.length := by
  intro st3 r st2 h
  cases leftN
  case ident name =>
    simp only [assignStoreF] at h
    cases h
    rw [envSet_envs_length]
  case indexE il ii =>
    simp only [assignStoreF] at h
    cases h4 : ev il env st3 with
    | error s => simp only [h4] at h; exact Except.noConfusion h
    | ok p =>
      obtain ⟨obj, st4⟩ := p
      simp only [h4] at h
      have l4 := hev il env st3 obj st4 h4
      split at h
      · cases h; exact l4
      · cases obj with
        | none => cases h; exact l4
        | some o =>
          cases o
          case arr ref =>
            cases h5 : ev ii env st4 with
            | error s => simp only [h5] at h; exact Except.noConfusion h
            | ok q =>
              obtain ⟨index, st5⟩ := q
              simp only [h5] at h
              have l5 := hev ii env st4 index st5 h5
              split at h
              · cases h; omega
              · split at h
                · split at h
                  · cases h; omega
                  · split at h
                    · cases h
                      rw [writeArray_envs]
                      omega
                    · exact Except.noConfusion h
                · cases h; omega
          all_goals (cases h; exact l4)
  all_goals
    (simp only [assignStoreF] at h
     cases h
     exact Nat.le_refl _)

theorem evalAssignF_mono (ev : EvalFn) (hev : EnvsMono ev) (leftN : Node) (opLit : String)
    (valueN : Node) (env : Nat) :
    ∀ (st : State) (r : Option Obj) (st2 : State),
      evalAssignF ev leftN opLit valueN env st = .ok (r, st2) →
      st.envs.length ≤ st2.envs.length := by
  intro st r st2 h
  cases hL : ev leftN env st with
  | error s => simp only [evalAssignF, hL] at h; exact Except.noConfusion h
  | ok p =>
    obtain ⟨left, st1⟩ := p
    simp only [evalAssignF, hL] at h
    have l1 := hev leftN env st left st1 hL
    split at h
    · simp only [Except.ok.injEq, Prod.mk.injEq] at h
      obtain ⟨ha, hb⟩ := h; subst hb; exact l1
    · cases hV : ev valueN env st1 with
      | error s => simp only [hV] at h; exact Except.noConfusion h
      | ok q =>
        obtain ⟨value0, st2a⟩ := q
        simp only [hV] at h
        have l2 := hev valueN env st1 value0 st2a hV
        split at h
        · simp only [Except.ok.injEq, Prod.mk.injEq] at h
          obtain ⟨ha, hb⟩ := h; subst hb; omega
        · by_cases hop : 2 ≤ opLit.length
          · simp only [if_pos hop] at h
            cases hI : evalInfixExpression (opLit.dropRight 1) left value0 st2a with
            | error s => simp only [hI] at h; exact Except.noConfusion h
            | ok q2 =>
              obtain ⟨w, st3⟩ := q2
              simp only [hI] at h
              have henv3 : st3.envs = st2a.envs := evalInfixExpression_envs _ _ _ _ _ _ hI
              split at h
              · simp only [Except.ok.injEq, Prod.mk.injEq] at h
                obtain ⟨ha, hb⟩ := h
                subst hb
                rw [henv3]
                omega
              · have l3 := assignStoreF_mono ev hev leftN (some w) env st3 r st2 h
                rw [henv3] at l3
                omega
          · simp only [if_neg hop] at h
            split at h
            · simp only [Except.ok.injEq, Prod.mk.injEq] at h
              obtain ⟨ha, hb⟩ := h; subst hb; omega
            · have l3 := assignStoreF_mono ev hev leftN value0 env st2a r st2 h
              omega

theorem Eval_mono : ∀ fuel, EnvsMono (Eval fuel) := by
  intro fuel
  induction fuel with
  | zero =>
    intro nd env st r st2 h
    simp only [Eval] at h
    exact Except.noConfusion h
  | succ n ih =>
    intro nd env st r st2 h
    cases nd
    case program stmts =>
      simp only [Eval] at h
      exact evalProgramF_mono _ ih _ _ _ _ _ _ h
    case exprStmt e =>
      simp only [Eval] at h
      exact ih e env st r st2 h
    case integerLit m =>
      simp only [Eval] at h
      cases h
      exact Nat.le_refl _
    case floatLit fr =>
      simp only [Eval] at h
      cases h
      exact Nat.le_refl _
    case booleanLit b =>
      simp only [Eval] at h
      cases h
      exact Nat.le_refl _
    case stringLit s =>
      simp only [Eval] at h
      cases h
      exact Nat.le_refl _
    case arrayLit elts =>
      simp only [Eval] at h
      cases he : evalExpressionsF (Eval n) env elts st with
      | error s => simp only [he] at h; exact Except.noConfusion h
      | ok p =>
        obtain ⟨elems, st1⟩ := p
        simp only [he] at h
        have h1 := evalExpressionsF_mono _ ih env elts st elems st1 he
        split at h
        · cases h; exact h1
        · simp only [allocArray] at h
          cases h
          exact h1
    case ident name =>
      simp only [Eval] at h
      cases h
      exact Nat.le_refl _
    case binE op l r2 =>
      simp only [Eval] at h
      cases hl : Eval n l env st with
      | error s => simp only [hl] at h; exact Except.noConfusion h
      | ok p =>
        obtain ⟨left, st1⟩ := p
        simp only [hl] at h
        have l1 := ih l env st left st1 hl
        split at h
        · cases h; exact l1
        · cases hr : Eval n r2 env st1 with
          | error s => simp only [hr] at h; exact Except.noConfusion h
          | ok q =>
            obtain ⟨right, st2a⟩ := q
            simp only [hr] at h
            have l2 := ih r2 env st1 right st2a hr
            split at h
            · cases h; omega
            · cases hx : evalInfixExpression op left right st2a with
              | error s => simp only [hx] at h; exact Except.noConfusion h
              | ok q2 =>
                obtain ⟨o, st3⟩ := q2
                simp only [hx] at h
                cases h
                have henv := evalInfixExpression_envs _ _ _ _ _ _ hx
                rw [henv]
                omega
    case ifE c cons alt =>
      simp only [Eval] at h
      cases hc : Eval n c env st with
      | error s => simp only [hc] at h; exact Except.noConfusion h
      | ok p =>
        obtain ⟨condition, st1⟩ := p
        simp only [hc] at h
        have l1 := ih c env st condition st1 hc
        split at h
        · cases h; exact l1
        · split at h
          · exact Nat.le_trans l1 (ih cons env st1 r st2 h)
          · cases alt with
            | some a =>
              exact Nat.le_trans l1 (ih a env st1 r st2 h)
            | none =>
              cases h
              exact l1
    case block stmts =>
      simp only [Eval] at h
      exact evalBlockF_mono _ ih _ _ _ _ _ _ h
    case whileE c b =>
      simp only [Eval] at h
      exact evalWhileF_mono _ ih _ _ _ _ _ _ h
    case breakE =>
      simp only [Eval] at h
      cases h
      exact Nat.le_refl _
    case continueE =>
      simp only [Eval] at h
      cases h
      exact Nat.le_refl _
    case ret e =>
      simp only [Eval] at h
      cases he : Eval n e env st with
      | error s => simp only [he] at h; exact Except.noConfusion h
      | ok p =>
        obtain ⟨val, st1⟩ := p
        simp only [he] at h
        have l1 := ih e env st val st1 he
        split at h
        · cases h; exact l1
        · cases h; exact l1
    case letS name valueN =>
      simp only [Eval] at h
      cases he : Eval n valueN env st with
      | error s => simp only [he] at h; exact Except.noConfusion h
      | ok p =>
        obtain ⟨val, st1⟩ := p
        simp only [he] at h
        have l1 := ih valueN env st val st1 he
        split at h
        · cases h; exact l1
        · cases h
          rw [envSet_envs_length]
          exact l1
    case funcLit params body =>
      simp only [Eval] at h
      cases h
      exact Nat.le_refl _
    case call fnN args =>
      simp only [Eval] at h
      cases hf : Eval n fnN env st with
      | error s => simp only [hf] at h; exact Except.noConfusion h
      | ok p =>
        obtain ⟨f, st1⟩ := p
        simp only [hf] at h
        have l1 := ih fnN env st f st1 hf
        split at h
        · cases h; exact l1
        · cases ha : evalExpressionsF (Eval n) env args st1 with
          | error s => simp only [ha] at h; exact Except.noConfusion h
          | ok q =>
            obtain ⟨argvs, st2a⟩ := q
            simp only [ha] at h
            have l2 := evalExpressionsF_mono _ ih env args st1 argvs st2a ha
            split at h
            · cases h; omega
            · exact Nat.le_trans l1 (Nat.le_trans l2
                (applyFunctionF_mono _ ih f argvs st2a r st2 h))
    case indexE l i =>
      simp only [Eval] at h
      cases hl : Eval n l env st with
      | error s => simp only [hl] at h; exact Except.noConfusion h
      | ok p =>
        obtain ⟨left, st1⟩ := p
        simp only [hl] at h
        have l1 := ih l env st left st1 hl
        split at h
        · cases h; exact l1
        · cases hi : Eval n i env st1 with
          | error s => simp only [hi] at h; exact Except.noConfusion h
          | ok q =>
            obtain ⟨index, st2a⟩ := q
            simp only [hi] at h
            have l2 := ih i env st1 index st2a hi
            split at h
            · cases h; omega
            · cases hx : evalIndexExpression left index st2a with
              | error s => simp only [hx] at h; exact Except.noConfusion h
              | ok r2 =>
                simp only [hx] at h
                cases h
                omega
    case assign leftN opLit valueN =>
      simp only [Eval] at h
      exact evalAssignF_mono _ ih _ _ _ _ _ _ _ h
    case switchE v choices =>
      simp only [Eval] at h
      exact evalSwitchF_mono _ ih _ _ _ _ _ _ h
    case forIn k v iterN body =>
      simp only [Eval] at h
      exact evalForInF_mono _ ih _ _ _ _ _ _ _ _ h
    case nullLit =>
      simp only [Eval] at h
      cases h
      exact Nat.le_refl _

/-- The failing input for claim C1, in surface syntax:
fanya i = 0; wakati (i < 1) { i = i + 1; rudisha 7 }.
The condition is true once; the body increments i and yields
ReturnValue(7). -/
def c1Prog : Node := .program [
  .letS "i" (.integerLit 0),
  .exprStmt (.whileE (.binE "<" (.ident "i") (.integerLit 1))
    (.block [.exprStmt (.assign (.ident "i") "=" (.binE "+" (.ident "i") (.integerLit 1))),
             .ret (.integerLit 7)]))]

/-- C1: the claim says a ReturnValue (or Error) produced by the while body
flows out of the while evaluation as its result.  evalWhileExpression
instead checks only Error and BREAK, recurses, and discards the recursive
result, returning NULL: on the failing input the body produces
ReturnValue(7), yet the program evaluates to NULL rather than 7. -/
theorem c1_while_discards_return_value :
    run 40 c1Prog = .ok (some .nullO) ∧ run 40 c1Prog ≠ .ok (some (.integer 7)) :=
  ⟨rfl, fun hcon => nomatch hcon⟩

/-- C6: multiplying an Array by an Integer, in either operand order,
yields a fresh array whose elements are the original elements repeated
max(1, n) times: the replication loop starts from one copy and appends
(n - 1) more, so multiplier 0 and negative multipliers still yield one
copy. -/
theorem c6_array_integer_replication (n : Nat) (l r : Node) (env : Nat)
    (st0 st1 st2 : State) (ref : Nat) (m : Int) (xs : List (Option Obj)) :
    (Eval n l env st0 = .ok (some (.arr ref), st1) →
     Eval n r env st1 = .ok (some (.integer m), st2) →
     st2.arrays.getD ref [] = xs →
     Eval (n + 1) (.binE "*" l r) env st0 =
       .ok (some (.arr st2.arrays.length),
         { st2 with arrays := st2.arrays ++ [List.flatten (List.replicate (max 1 m).toNat xs)] }))
    ∧
    (Eval n l env st0 = .ok (some (.integer m), st1) →
     Eval n r env st1 = .ok (some (.arr ref), st2) →
     st2.arrays.getD ref [] = xs →
     Eval (n + 1) (.binE "*" l r) env st0 =
       .ok (some (.arr st2.arrays.length),
         { st2 with arrays := st2.arrays ++ [List.flatten (List.replicate (max 1 m).toNat xs)] })) := by
  constructor
  · intro h1 h2 h3
    simp only [Eval, h1, isError, Bool.false_eq_true, if_false, h2,
      evalInfixExpression, h3, arrayRepLoop_maxCopies, allocArray]
  · intro h1 h2 h3
    simp only [Eval, h1, isError, Bool.false_eq_true, if_false, h2,
      evalInfixExpression, h3, arrayRepLoop_maxCopies, allocArray]

/-- The heap after evaluating the array literal of the C6 witness. -/
def c6State1 : State := ⟨[⟨[], none⟩], [[some (.integer 1)]]⟩

/-- Witness for C6 at the concrete input [1] * 0: multiplier 0 still
yields one copy of the array. -/
theorem c6_array_integer_replication_witness :
    Eval 3 (.binE "*" (.arrayLit [.integerLit 1]) (.integerLit 0)) 0 initState =
      .ok (some (.arr c6State1.arrays.length),
        { c6State1 with
          arrays := c6State1.arrays ++
            [List.flatten (List.replicate (max 1 (0 : Int)).toNat [some (.integer 1)])] }) :=
  (c6_array_integer_replication 2 (.arrayLit [.integerLit 1]) (.integerLit 0) 0
    initState c6State1 c6State1 0 0 [some (.integer 1)]).1 rfl rfl rfl

/-- C4 counterexample: the claim says s * n with a negative n yields the
empty string and never fails.  The source calls strings.Repeat, which
panics on a negative count: "a" * (-1) is a runtime panic, not "". -/
theorem c4_counterexample :
    Eval 2 (.binE "*" (.stringLit "a") (.integerLit (-1))) 0 initState =
      .error (.goPanic "strings: negative Repeat count")
    ∧ Eval 2 (.binE "*" (.stringLit "a") (.integerLit (-1))) 0 initState ≠
      .ok (some (.str ""), initState) :=
  ⟨rfl, fun hcon => nomatch hcon⟩

theorem wrap64_tdiv_eq_iff (L c : Int) (hL : 0 ≤ L) (hc : 0 < c) :
    (wrap64 (L * c)).tdiv c = L ↔ L * c < 2 ^ 63 := by
  constructor
  · intro h
    by_contra hge
    push_neg at hge
    have hmodnn : 0 ≤ (L * c + 2 ^ 63) % 2 ^ 64 :=
      Int.emod_nonneg _ (by norm_num)
    have hmodlt : (L * c + 2 ^ 63) % 2 ^ 64 < 2 ^ 64 :=
      Int.emod_lt_of_pos _ (by norm_num)
    have hw_lt : wrap64 (L * c) < 2 ^ 63 := by
      unfold wrap64
      omega
    rcases le_or_lt 0 (wrap64 (L * c)) with hw | hw
    · rw [Int.tdiv_eq_ediv hw hc.le] at h
      have h2 : wrap64 (L * c) / c * c ≤ wrap64 (L * c) :=
        Int.ediv_mul_le _ (Int.ne_of_gt hc)
      rw [h] at h2
      omega
    · have hL_pos : 0 < L := by
        rcases hL.lt_or_eq with h1 | h1
        · exact h1
        · exfalso
          rw [← h1, Int.zero_mul] at hge
          omega
      rw [← Int.neg_neg (wrap64 (L * c)), Int.neg_tdiv] at h
      have hpos : 0 ≤ (-(wrap64 (L * c))).tdiv c := Int.tdiv_nonneg (by omega) hc.le
      omega
  · intro hlt
    have hnn : 0 ≤ L * c := Int.mul_nonneg hL hc.le
    have hwrap : wrap64 (L * c) = L * c := by
      unfold wrap64
      rw [Int.emod_eq_of_lt (by omega) (by omega)]
      omega
    rw [hwrap]
    exact Int.mul_tdiv_cancel L (Int.ne_of_gt hc)

theorem stringsRepeat_spec (s : String) (m : Int) :
    stringsRepeat s m =
      if m < 0 then .error (.goPanic "strings: negative Repeat count")
      else if 2 ^ 63 ≤ (s.utf8ByteSize : Int) * m then
        .error (.goPanic "strings: Repeat count causes overflow")
      else .ok (String.join (List.replicate m.toNat s)) := by
  unfold stringsRepeat
  rcases lt_trichotomy m 0 with hm | hm | hm
  · rw [if_neg (show ¬ m = 0 by omega), if_pos hm, if_pos hm]
  · subst hm
    rw [if_pos rfl, if_neg (show ¬ (0 : Int) < 0 by omega),
      if_neg (show ¬ (2 : Int) ^ 63 ≤ (s.utf8ByteSize : Int) * 0 by
        rw [Int.mul_zero]; norm_num)]
    rfl
  · have hiff := wrap64_tdiv_eq_iff (s.utf8ByteSize : Int) m (Int.ofNat_nonneg _) hm
    have h0 : ¬ m = 0 := by omega
    have hneg : ¬ m < 0 := by omega
    rw [if_neg h0, if_neg hneg, if_neg hneg]
    by_cases hov : 2 ^ 63 ≤ (s.utf8ByteSize : Int) * m
    · have hcond : (wrap64 ((s.utf8ByteSize : Int) * m)).tdiv m ≠ (s.utf8ByteSize : Int) :=
        fun heq => absurd (hiff.mp heq) (by omega)
      rw [if_pos hcond, if_pos hov]
    · have hcond : ¬ (wrap64 ((s.utf8ByteSize : Int) * m)).tdiv m ≠ (s.utf8ByteSize : Int) :=
        fun hne => hne (hiff.mpr (by omega))
      rw [if_neg hcond, if_neg hov]

/-- C4 amended: a String times an Integer, in either operand order,
evaluates to the string repeated n times when n is non-negative and the
product of byte length and n stays within the signed 64-bit range; a
negative n panics through strings.Repeat (it is not treated as 0); and
an n whose repeated length overflows a 64-bit int panics through the
library's deterministic overflow guard. -/
theorem c4_string_integer_repetition (n : Nat) (l r : Node) (env : Nat)
    (st0 st1 st2 : State) (s : String) (m : Int) :
    (Eval n l env st0 = .ok (some (.str s), st1) →
     Eval n r env st1 = .ok (some (.integer m), st2) →
     Eval (n + 1) (.binE "*" l r) env st0 =
       if m < 0 then .error (.goPanic "strings: negative Repeat count")
       else if 2 ^ 63 ≤ (s.utf8ByteSize : Int) * m then
         .error (.goPanic "strings: Repeat count causes overflow")
       else .ok (some (.str (String.join (List.replicate m.toNat s))), st2))
    ∧
    (Eval n l env st0 = .ok (some (.integer m), st1) →
     Eval n r env st1 = .ok (some (.str s), st2) →
     Eval (n + 1) (.binE "*" l r) env st0 =
       if m < 0 then .error (.goPanic "strings: negative Repeat count")
       else if 2 ^ 63 ≤ (s.utf8ByteSize : Int) * m then
         .error (.goPanic "strings: Repeat count causes overflow")
       else .ok (some (.str (String.join (List.replicate m.toNat s))), st2)) := by
  constructor
  · intro h1 h2
    simp only [Eval, h1, isError, Bool.false_eq_true, if_false, h2,
      evalInfixExpression, stringsRepeat_spec]
    by_cases hm : m < 0
    · rw [if_pos hm, if_pos hm]
      rfl
    · rw [if_neg hm, if_neg hm]
      by_cases hov : 2 ^ 63 ≤ (s.utf8ByteSize : Int) * m
      · rw [if_pos hov, if_pos hov]
        rfl
      · rw [if_neg hov, if_neg hov]
        rfl
  · intro h1 h2
    simp only [Eval, h1, isError, Bool.false_eq_true, if_false, h2,
      evalInfixExpression, stringsRepeat_spec]
    by_cases hm : m < 0
    · rw [if_pos hm, if_pos hm]
      rfl
    · rw [if_neg hm, if_neg hm]
      by_cases hov : 2 ^ 63 ≤ (s.utf8ByteSize : Int) * m
      · rw [if_pos hov, if_pos hov]
        rfl
      · rw [if_neg hov, if_neg hov]
        rfl

/-- Witness for the amended C4 at "ab" * 2: no panic, "abab". -/
theorem c4_string_integer_repetition_witness :
    Eval 2 (.binE "*" (.stringLit "ab") (.integerLit 2)) 0 initState =
      if (2 : Int) < 0 then .error (.goPanic "strings: negative Repeat count")
      else if 2 ^ 63 ≤ (("ab" : String).utf8ByteSize : Int) * 2 then
        .error (.goPanic "strings: Repeat count causes overflow")
      else .ok (some (.str (String.join (List.replicate (2 : Int).toNat "ab"))), initState) :=
  (c4_string_integer_repetition 1 (.stringLit "ab") (.integerLit 2) 0
    initState initState initState "ab" 2).1 rfl rfl

theorem getD_updateAt_nil_fixed (l : List (List (Option Obj))) (i : Nat)
    (f : List (Option Obj) → List (Option Obj)) (hf : f [] = []) :
    (updateAt l i f).getD i [] = f (l.getD i []) := by
  induction l generalizing i with
  | nil => simp [updateAt, hf]
  | cons x rest ih =>
    cases i with
    | zero => simp [updateAt]
    | succ j => simpa [updateAt] using ih j

/-- The failing input for claim C3, in surface syntax:
fanya a = [1]; a[1] = 5 — a write at index equal to the length. -/
def c3Prog : Node := .program [
  .letS "a" (.arrayLit [.integerLit 1]),
  .exprStmt (.assign (.indexE (.ident "a") (.integerLit 1)) "=" (.integerLit 5))]

/-- C3 counterexample: the claim says a write at index = length returns
the error "Index imezidi idadi ya elements".  The source's bounds check
uses strictly-greater (idx > len), so index = length passes the check
and the slice write panics instead of producing that error. -/
theorem c3_counterexample :
    run 20 c3Prog = .error (.goPanic "index out of range")
    ∧ run 20 c3Prog ≠ .ok (some (newError "Index imezidi idadi ya elements")) :=
  ⟨rfl, fun hcon => nomatch hcon⟩

/-- C3 amended: for an assignment through an index expression over an
Array with an Integer index, the "Index imezidi idadi ya elements" error
is returned exactly when the index exceeds the length; an index within
[0, length) succeeds, yielding nil and replacing that slot; an index
equal to the length (or negative) passes the bounds check but the slot
write itself is out of range and panics. -/
theorem c3_array_index_assignment (n : Nat) (il ii valueN : Node) (env : Nat)
    (st0 st1 st2 st4 st5 : State) (lv v : Option Obj) (ref : Nat) (idx : Int)
    (xs : List (Option Obj))
    (h1 : Eval n (.indexE il ii) env st0 = .ok (lv, st1)) (hlv : isError lv = false)
    (h2 : Eval n valueN env st1 = .ok (v, st2)) (hv : isError v = false)
    (h3 : Eval n il env st2 = .ok (some (.arr ref), st4))
    (h4 : Eval n ii env st4 = .ok (some (.integer idx), st5))
    (hxs : st5.arrays.getD ref [] = xs) :
    (Eval (n + 1) (.assign (.indexE il ii) "=" valueN) env st0 =
      if (xs.length : Int) < idx then
        .ok (some (newError "Index imezidi idadi ya elements"), st5)
      else if 0 ≤ idx ∧ idx < (xs.length : Int) then
        .ok (none, writeArray st5 ref idx.toNat v)
      else .error (.goPanic "index out of range"))
    ∧ (writeArray st5 ref idx.toNat v).arrays.getD ref [] = xs.set idx.toNat v := by
  constructor
  · have harr : isError (some (Obj.arr ref)) = false := rfl
    have hint : isError (some (Obj.integer idx)) = false := rfl
    simp only [Eval, evalAssignF, h1, hlv, Bool.false_eq_true, if_false, h2, hv]
    rw [if_neg (by decide : ¬ 2 ≤ ("=" : String).length)]
    simp only [hv, Bool.false_eq_true, if_false, assignStoreF, h3, harr, h4, hint, hxs]
  · rw [← hxs]
    exact getD_updateAt_nil_fixed st5.arrays ref _ rfl

/-- A state binding a to an array [1], for the C3 witness. -/
def c3WitState : State := ⟨[⟨[("a", some (.arr 0))], none⟩], [[some (.integer 1)]]⟩

/-- Witness for the amended C3: a[0] = 5 on a = [1] succeeds, yields nil
and replaces the slot. -/
theorem c3_array_index_assignment_witness :
    (Eval 3 (.assign (.indexE (.ident "a") (.integerLit 0)) "=" (.integerLit 5)) 0 c3WitState =
      .ok (none, writeArray c3WitState 0 (0 : Int).toNat (some (.integer 5))))
    ∧ (writeArray c3WitState 0 (0 : Int).toNat (some (.integer 5))).arrays.getD 0 [] =
        [some (.integer 5)] :=
  c3_array_index_assignment 2 (.ident "a") (.integerLit 0) (.integerLit 5) 0
    c3WitState c3WitState c3WitState c3WitState c3WitState
    (some (.integer 1)) (some (.integer 5)) 0 0 [some (.integer 1)]
    rfl rfl rfl rfl rfl rfl rfl

/-- The clause selection the spec describes for switch: the first
non-default clause one of whose candidates matches the scrutinee by type
tag and inspection; cval gives the value of each candidate expression.
Spec-side selector, compared against the code below. -/
def firstMatchBlock (st : State) (scr : Obj) (cval : Node → Obj) :
    List (Bool × List Node × List Node) → Option (List Node)
  | [] => none
  | (isDef, exprs, blk) :: rest =>
    if isDef then firstMatchBlock st scr cval rest
    else if exprs.any (fun e => switchMatch st scr (cval e)) then some blk
    else firstMatchBlock st scr cval rest

/-- The first default clause's block, per the spec's description of the
default scan. -/
def firstDefaultBlock : List (Bool × List Node × List Node) → Option (List Node)
  | [] => none
  | (isDef, _, blk) :: rest => if isDef then some blk else firstDefaultBlock rest

theorem evalSwitchExprsF_pure (ev : EvalFn) (env : Nat) (cval : Node → Obj) (scr : Obj)
    (blk : List Node) :
    ∀ (exprs : List Node) (st : State),
      (∀ e ∈ exprs, ∀ st1 : State, ev e env st1 = .ok (some (cval e), st1)) →
      evalSwitchExprsF ev (some scr) blk env exprs st =
        if exprs.any (fun e => switchMatch st scr (cval e)) then
          (match evalBlockF ev env blk none st with
           | .error s => .error s
           | .ok (r, st2) => .ok (some r, st2))
        else .ok (none, st) := by
  intro exprs
  induction exprs with
  | nil => intro st hp; simp [evalSwitchExprsF]
  | cons e rest ih =>
    intro st hp
    have he : ev e env st = .ok (some (cval e), st) := hp e (by simp) st
    simp only [evalSwitchExprsF, he]
    by_cases hm : switchMatch st scr (cval e)
    · simp [hm]
    · have hih := ih st (fun e2 he2 st1 => hp e2 (by simp [he2]) st1)
      simp [hm, hih]

theorem evalSwitchChoicesF_pure (ev : EvalFn) (env : Nat) (cval : Node → Obj) (scr : Obj) :
    ∀ (choices : List (Bool × List Node × List Node)) (st : State),
      (∀ c ∈ choices, c.1 = false → ∀ e ∈ c.2.1, ∀ st1 : State,
        ev e env st1 = .ok (some (cval e), st1)) →
      evalSwitchChoicesF ev (some scr) env choices st =
        match firstMatchBlock st scr cval choices with
        | some blk =>
          (match evalBlockF ev env blk none st with
           | .error s => .error s
           | .ok (r, st2) => .ok (some r, st2))
        | none => .ok (none, st) := by
  intro choices
  induction choices with
  | nil => intro st hp; simp [evalSwitchChoicesF, firstMatchBlock]
  | cons ch rest ih =>
    intro st hp
    obtain ⟨isDef, exprs, blk⟩ := ch
    have hih := ih st (fun c hc => hp c (by simp [hc]))
    cases isDef with
    | true => simp [evalSwitchChoicesF, firstMatchBlock, hih]
    | false =>
      have hex := evalSwitchExprsF_pure ev env cval scr blk exprs st
        (fun e he st1 => hp (false, exprs, blk) (by simp) rfl e he st1)
      simp only [evalSwitchChoicesF, firstMatchBlock, if_false, Bool.false_eq_true, hex]
      by_cases hany : exprs.any (fun e => switchMatch st scr (cval e))
      · simp only [hany, if_true]
        cases hb : evalBlockF ev env blk none st with
        | error s => simp [hb]
        | ok p =>
          obtain ⟨r, st2⟩ := p
          simp [hb]
      · simp [hany, hih]

theorem evalSwitchDefaultF_eq (ev : EvalFn) (env : Nat) :
    ∀ (choices : List (Bool × List Node × List Node)) (st : State),
      evalSwitchDefaultF ev env choices st =
        match firstDefaultBlock choices with
        | some blk => evalBlockF ev env blk none st
        | none => .ok (none, st) := by
  intro choices
  induction choices with
  | nil => intro st; simp [evalSwitchDefaultF, firstDefaultBlock]
  | cons ch rest ih =>
    intro st
    obtain ⟨isDef, exprs, blk⟩ := ch
    cases isDef with
    | true => simp [evalSwitchDefaultF, firstDefaultBlock]
    | false => simp [evalSwitchDefaultF, firstDefaultBlock, ih]

theorem evalSwitchF_pure (ev : EvalFn) (env : Nat) (cval : Node → Obj) (scr : Obj)
    (v : Node) (choices : List (Bool × List Node × List Node)) (st0 st1 : State)
    (hscr : ev v env st0 = .ok (some scr, st1))
    (hp : ∀ c ∈ choices, c.1 = false → ∀ e ∈ c.2.1, ∀ st2 : State,
      ev e env st2 = .ok (some (cval e), st2)) :
    evalSwitchF ev v choices env st0 =
      match firstMatchBlock st1 scr cval choices with
      | some blk => evalBlockF ev env blk none st1
      | none =>
        match firstDefaultBlock choices with
        | some blk => evalBlockF ev env blk none st1
        | none => .ok (none, st1) := by
  simp only [evalSwitchF, hscr, evalSwitchChoicesF_pure ev env cval scr choices st1 hp]
  cases hfm : firstMatchBlock st1 scr cval choices with
  | some blk =>
    simp only
    cases hb : evalBlockF ev env blk none st1 with
    | error s => simp [hb]
    | ok p =>
      obtain ⟨r, st2⟩ := p
      simp [hb]
  | none => simp [evalSwitchDefaultF_eq]

/-- C7: for a switch whose scrutinee evaluates to a value and whose
candidate expressions evaluate purely to fixed values, the non-default
clauses' candidates are tried in order; a candidate matches exactly when
its runtime type tag and its textual inspection both equal the
scrutinee's; the first matching clause's block is the only block
evaluated and its result is the switch's result; the first default
clause runs only when no non-default candidate matches; and an Integer
scrutinee never matches a Float candidate (or vice versa), whatever the
inspections. -/
theorem c7_switch_first_match (n : Nat) (vN : Node)
    (choices : List (Bool × List Node × List Node)) (env : Nat) (st0 st1 : State)
    (scr : Obj) (cval : Node → Obj)
    (hscr : Eval n vN env st0 = .ok (some scr, st1))
    (hpure : ∀ c ∈ choices, c.1 = false → ∀ e ∈ c.2.1, ∀ st : State,
      Eval n e env st = .ok (some (cval e), st)) :
    (Eval (n + 1) (.switchE vN choices) env st0 =
      match firstMatchBlock st1 scr cval choices with
      | some blk => evalBlockF (Eval n) env blk none st1
      | none =>
        match firstDefaultBlock choices with
        | some blk => evalBlockF (Eval n) env blk none st1
        | none => .ok (none, st1))
    ∧ (∀ (m : Int) (fr : String) (st : State),
        switchMatch st (.integer m) (.float fr) = false
        ∧ switchMatch st (.float fr) (.integer m) = false) := by
  constructor
  · simp only [Eval]
    exact evalSwitchF_pure (Eval n) env cval scr vN choices st0 st1 hscr hpure
  · intro m fr st
    exact ⟨rfl, rfl⟩

/-- The candidate values of the C7 witness switch. -/
def c7cval : Node → Obj
  | .integerLit k => .integer k
  | _ => .nullO

/-- The clauses of the C7 witness switch:
badili 2 { ikiwa 1: "a" ikiwa 2,3: "b" kawaida: "c" }. -/
def c7Choices : List (Bool × List Node × List Node) := [
  (false, [.integerLit 1], [.exprStmt (.stringLit "a")]),
  (false, [.integerLit 2, .integerLit 3], [.exprStmt (.stringLit "b")]),
  (true, [], [.exprStmt (.stringLit "c")])]

/-- Witness for C7: the second clause matches scrutinee 2 and its block
"b" is the result; Integer/Float never match. -/
theorem c7_switch_first_match_witness :
    (Eval 3 (.switchE (.integerLit 2) c7Choices) 0 initState =
      .ok (some (.str "b"), initState))
    ∧ (∀ (m : Int) (fr : String) (st : State),
        switchMatch st (.integer m) (.float fr) = false
        ∧ switchMatch st (.float fr) (.integer m) = false) :=
  c7_switch_first_match 2 (.integerLit 2) c7Choices 0 initState initState
    (.integer 2) c7cval rfl
    (by
      intro c hc hdef e he st
      simp only [c7Choices, List.mem_cons, List.not_mem_nil, or_false] at hc
      rcases hc with h | h | h <;> subst h
      · simp only [List.mem_cons, List.not_mem_nil, or_false] at he
        subst he
        rfl
      · simp only [List.mem_cons, List.not_mem_nil, or_false] at he
        rcases he with he | he <;> subst he <;> rfl
      · simp at hdef)

/-- The deferred-restore step of evalForInExpression for one saved
binding: write the saved value back into the current environment when
the name had one. -/
def restoreBinding (st : State) (env : Nat) (name : String) (saved : Option (Option Obj)) : State :=
  match saved with
  | some w => envSet st env name w
  | none => st

/-- The counterexample input for claim C2: a switch whose scrutinee is
an unknown identifier (an Error) and which has a default clause. -/
def c2Prog : Node := .program [.exprStmt (.switchE (.ident "zzz") [
  (false, [.integerLit 1], [.exprStmt (.stringLit "a")]),
  (true, [], [.exprStmt (.stringLit "d")])])]

/-- C2 counterexample: the claim says an Error from the switch scrutinee
is returned unchanged by the enclosing evaluation.  evalSwitchStatement
evaluates the scrutinee with no error check: the unknown-identifier
error participates in matching, no candidate matches it, and the default
clause's "d" is returned instead of the error. -/
theorem c2_counterexample :
    run 20 c2Prog = .ok (some (.str "d"))
    ∧ run 20 c2Prog ≠ .ok (some (newError "Neno Halifahamiki: zzz")) :=
  ⟨rfl, fun hcon => nomatch hcon⟩

/-- C2 amended: callers that check isError return a sub-evaluation's
Error unchanged (shown for an infix left operand), but the switch
scrutinee and candidate expressions carry no error check — an Error
scrutinee participates in matching, and when nothing matches it a
default clause runs instead of propagating it — and an Error from the
for-in iterable is replaced by the fresh not-iterable error; moreover
Eval can also return no object at all (Go nil), as a let statement
does. -/
theorem c2_error_sites :
    (∀ (n : Nat) (op : String) (l r2 : Node) (env : Nat) (st st1 : State) (msg : String),
      Eval n l env st = .ok (some (.errObj msg), st1) →
      Eval (n + 1) (.binE op l r2) env st = .ok (some (.errObj msg), st1))
    ∧ (∀ (n : Nat) (vN : Node) (choices : List (Bool × List Node × List Node)) (env : Nat)
        (st0 st1 : State) (msg : String) (cval : Node → Obj) (blk : List Node),
      Eval n vN env st0 = .ok (some (.errObj msg), st1) →
      (∀ c ∈ choices, c.1 = false → ∀ e ∈ c.2.1, ∀ st : State,
        Eval n e env st = .ok (some (cval e), st)) →
      firstMatchBlock st1 (.errObj msg) cval choices = none →
      firstDefaultBlock choices = some blk →
      Eval (n + 1) (.switchE vN choices) env st0 = evalBlockF (Eval n) env blk none st1)
    ∧ (∀ (n : Nat) (k v : String) (iterN body : Node) (env : Nat) (st st1 : State) (msg : String),
      Eval n iterN env st = .ok (some (.errObj msg), st1) →
      Eval (n + 1) (.forIn k v iterN body) env st =
        .ok (some (newError "Huwezi kufanya operesheni hii na ERROR"),
          restoreBinding (restoreBinding st1 env k (envGet st1 env k)) env v
            (envGet st1 env v)))
    ∧ Eval 2 (.letS "a" (.integerLit 0)) 0 initState =
        .ok (none, envSet initState 0 "a" (some (.integer 0))) := by
  refine ⟨?_, ?_, ?_, rfl⟩
  · intro n op l r2 env st st1 msg h
    simp [Eval, h, isError]
  · intro n vN choices env st0 st1 msg cval blk hscr hpure hfm hfd
    simp only [Eval]
    rw [evalSwitchF_pure (Eval n) env cval (.errObj msg) vN choices st0 st1 hscr hpure]
    simp [hfm, hfd]
  · intro n k v iterN body env st st1 msg h
    simp only [Eval, evalForInF, h, restoreBinding]
    rfl

/-- Witness for the amended C2: an unknown-identifier error as left
operand of + propagates unchanged. -/
theorem c2_error_sites_witness :
    Eval 2 (.binE "+" (.ident "zzz") (.integerLit 1)) 0 initState =
      .ok (some (newError "Neno Halifahamiki: zzz"), initState) :=
  c2_error_sites.1 1 "+" (.ident "zzz") (.integerLit 1) 0 initState initState
    ("\x1b[31mNeno Halifahamiki: zzz\x1b[0m") rfl

theorem envGetAux_append (envs more : List EnvData) :
    ∀ (f id : Nat) (nm : String) (w : Option Obj),
      envGetAux envs f id nm = some w → envGetAux (envs ++ more) f id nm = some w := by
  intro f
  induction f with
  | zero => intro id nm w h; simp [envGetAux] at h
  | succ f ih =>
    intro id nm w h
    simp only [envGetAux] at h ⊢
    cases he : envs[id]? with
    | none => rw [he] at h; simp at h
    | some ed =>
      simp only [he] at h
      have hid : id < envs.length := by
        by_contra hh
        rw [List.getElem?_eq_none (by omega)] at he
        cases he
      rw [List.getElem?_append_left hid]
      simp only [he]
      cases hl : lookupStore ed.store nm with
      | some v =>
        simp only [hl] at h ⊢
        exact h
      | none =>
        simp only [hl] at h ⊢
        cases ho : ed.outer with
        | some o =>
          simp only [ho] at h ⊢
          exact ih o nm w h
        | none =>
          simp only [ho] at h
          exact Option.noConfusion h

theorem envGet_newEnclosed (st : State) (e0 : Nat) (x : String) (w : Option Obj)
    (h : envGet st e0 x = some w) :
    envGet (newEnclosed st e0).2 (newEnclosed st e0).1 x = some w := by
  simp only [envGet, newEnclosed] at h ⊢
  rw [List.length_append]
  show envGetAux (st.envs ++ [⟨[], some e0⟩]) ((st.envs.length + 1) + 1) st.envs.length x = some w
  simp only [envGetAux]
  rw [List.getElem?_concat_length]
  simp only [lookupStore]
  exact envGetAux_append st.envs [⟨[], some e0⟩] (st.envs.length + 1) e0 x w h

/-- C8: a function value carries the identifier of its defining
environment, and a call resolves a free name against that environment's
chain as it stands in the call-time state: applying a closure over
environment env0 whose body is the free identifier x returns whatever x
is bound to in env0's chain at call time; concretely, in
fanya x = a; fanya f = unda() { x }; x = b; f(), the call observes the
mutation and yields b, not a. -/
theorem c8_closure_resolves_at_call_time (m : Nat) (env0 : Nat) (x : String)
    (vv : Obj) (st : State)
    (hx : envGet st env0 x = some (some vv))
    (hnr : ∀ w, vv ≠ .retV w) :
    (applyFunctionF (Eval (m + 1)) (some (.fn [] (.ident x) env0)) [] st =
      .ok (some vv, (newEnclosed st env0).2))
    ∧ (∀ (a b : Int),
        run 9 (.program [
          .letS "x" (.integerLit a),
          .letS "f" (.funcLit [] (.block [.exprStmt (.ident "x")])),
          .exprStmt (.assign (.ident "x") "=" (.integerLit b)),
          .exprStmt (.call (.ident "f") [])]) = .ok (some (.integer b))) := by
  constructor
  · have hlook := envGet_newEnclosed st env0 x (some vv) hx
    simp only [applyFunctionF, extendFunctionEnv, bindParams, Eval, evalIdentifierF, hlook]
    cases vv
    case retV w => exact absurd rfl (hnr w)
    all_goals rfl
  · intro a b
    rfl

/-- A call-time state binding x to 3 in the root environment, for the C8
witness. -/
def c8WitState : State := ⟨[⟨[("x", some (.integer 3))], none⟩], []⟩

/-- Witness for C8: calling the closure over the root environment with
body x reads the call-time binding 3, and the mutation program yields
the mutated value. -/
theorem c8_closure_resolves_at_call_time_witness :
    (applyFunctionF (Eval 5) (some (.fn [] (.ident "x") 0)) [] c8WitState =
      .ok (some (.integer 3), (newEnclosed c8WitState 0).2))
    ∧ (∀ (a b : Int),
        run 9 (.program [
          .letS "x" (.integerLit a),
          .letS "f" (.funcLit [] (.block [.exprStmt (.ident "x")])),
          .exprStmt (.assign (.ident "x") "=" (.integerLit b)),
          .exprStmt (.call (.ident "f") [])]) = .ok (some (.integer b))) :=
  c8_closure_resolves_at_call_time 4 0 "x" (.integer 3) c8WitState rfl
    (fun _ h => nomatch h)

theorem envGet_after_restore (st2 : State) (env : Nat) (k v : String) (vk vv : Option Obj)
    (hlen : env < st2.envs.length) (hkv : k = v → vk = vv) :
    envGet (envSet (envSet st2 env k vk) env v vv) env k = some vk
    ∧ envGet (envSet (envSet st2 env k vk) env v vv) env v = some vv := by
  obtain ⟨ed2, hed2⟩ : ∃ ed2, st2.envs[env]? = some ed2 := by
    rw [List.getElem?_eq_getElem hlen]
    exact ⟨_, rfl⟩
  have h1 : (envSet st2 env k vk).envs[env]? =
      some ⟨setStore ed2.store k vk, ed2.outer⟩ :=
    getElem?_updateAt_self _ _ _ _ hed2
  have h2 : (envSet (envSet st2 env k vk) env v vv).envs[env]? =
      some ⟨setStore (setStore ed2.store k vk) v vv, ed2.outer⟩ :=
    getElem?_updateAt_self _ _ _ _ h1
  constructor
  · by_cases hkvv : k = v
    · subst hkvv
      have he : vk = vv := hkv rfl
      subst he
      exact envGet_local _ env _ k vk h2 (lookupStore_setStore_self _ k vk)
    · exact envGet_local _ env _ k vk h2
        (by rw [lookupStore_setStore_other hkvv, lookupStore_setStore_self])
  · exact envGet_local _ env _ v vv h2 (lookupStore_setStore_self _ v vv)

/-- C9: a for-in loop saves the bindings of its iteration names and
restores them on every exit.  If, in the state reached after evaluating
the iterable, the current environment locally binds the key and value
names, then whatever way the loop returns a result — normal completion,
break, return, or an in-band error — those names are bound to their
saved values again in the final state. -/
theorem c9_forin_restores_bindings (m : Nat) (k v : String) (iterN body : Node)
    (env : Nat) (st0 st1 : State) (it : Option Obj) (ed : EnvData) (vk vv : Option Obj)
    (hiter : Eval m iterN env st0 = .ok (it, st1))
    (hed : st1.envs[env]? = some ed)
    (hk : lookupStore ed.store k = some vk)
    (hv : lookupStore ed.store v = some vv) :
    ∀ (res : Option Obj) (stF : State),
      Eval (m + 1) (.forIn k v iterN body) env st0 = .ok (res, stF) →
      envGet stF env k = some vk ∧ envGet stF env v = some vv := by
  intro res stF h
  have hSk : envGet st1 env k = some vk := envGet_local st1 env ed k vk hed hk
  have hSv : envGet st1 env v = some vv := envGet_local st1 env ed v vv hed hv
  have hkv : k = v → vk = vv := by
    intro he
    subst he
    rw [hk] at hv
    exact Option.some.inj hv
  have hlen1 : env < st1.envs.length := by
    by_contra hh
    rw [List.getElem?_eq_none (by omega)] at hed
    cases hed
  simp only [Eval, evalForInF, hiter, hSk, hSv] at h
  cases it with
  | none => exact Except.noConfusion h
  | some o =>
    cases o
    case arr ref =>
      cases hl : loopIterableF (Eval m) k v body env
          (iterPairsArr (st1.arrays.getD ref []) 0) st1 with
      | error s =>
        simp only [hl] at h
        exact Except.noConfusion h
      | ok q =>
        obtain ⟨res0, st2⟩ := q
        simp only [hl] at h
        have hmono := loopIterableF_mono (Eval m) (Eval_mono m) k v body env _ st1 res0 st2 hl
        cases h
        exact envGet_after_restore st2 env k v vk vv (by omega) hkv
    case str s =>
      cases hl : loopIterableF (Eval m) k v body env (iterPairsStr s.toList 0) st1 with
      | error s2 =>
        simp only [hl] at h
        exact Except.noConfusion h
      | ok q =>
        obtain ⟨res0, st2⟩ := q
        simp only [hl] at h
        have hmono := loopIterableF_mono (Eval m) (Eval_mono m) k v body env _ st1 res0 st2 hl
        cases h
        exact envGet_after_restore st2 env k v vk vv (by omega) hkv
    all_goals
      (cases h
       exact envGet_after_restore st1 env k v vk vv hlen1 hkv)

/-- A state binding the iteration names i and j before the loop, for the
C9 witness. -/
def c9WitState : State := ⟨[⟨[("i", some (.integer 7)), ("j", some (.integer 8))], none⟩], []⟩

/-- Witness for C9: iterating over the one-character string "a" with an
empty body overwrites i and j during the loop, and the final state binds
both to their pre-loop values again. -/
theorem c9_forin_restores_bindings_witness :
    envGet c9WitState 0 "i" = some (some (.integer 7))
    ∧ envGet c9WitState 0 "j" = some (some (.integer 8)) :=
  c9_forin_restores_bindings 3 "i" "j" (.stringLit "a") (.block []) 0
    c9WitState c9WitState (some (.str "a"))
    ⟨[("i", some (.integer 7)), ("j", some (.integer 8))], none⟩
    (some (.integer 7)) (some (.integer 8)) rfl rfl rfl rfl
    (some .nullO) c9WitState rfl

/-- C10: a let statement, and an assignment that stores successfully,
return no result object at all — Go nil, modelled as none and distinct
from NULL — so a program whose last statement is a let produces no
value; a switch with no matching clause and no default clause likewise
returns nil. -/
theorem c10_let_assign_switch_yield_nil :
    (∀ (n : Nat) (name : String) (valueN : Node) (env : Nat) (st st1 : State) (v : Option Obj),
      Eval n valueN env st = .ok (v, st1) → isError v = false →
      Eval (n + 1) (.letS name valueN) env st = .ok (none, envSet st1 env name v))
    ∧ (∀ (n : Nat) (name : String) (valueN : Node) (env : Nat) (st st1 st2 : State)
        (lv v : Option Obj),
      Eval n (.ident name) env st = .ok (lv, st1) → isError lv = false →
      Eval n valueN env st1 = .ok (v, st2) → isError v = false →
      Eval (n + 1) (.assign (.ident name) "=" valueN) env st = .ok (none, envSet st2 env name v))
    ∧ (∀ (n : Nat) (vN : Node) (choices : List (Bool × List Node × List Node)) (env : Nat)
        (st0 st1 : State) (scr : Obj) (cval : Node → Obj),
      Eval n vN env st0 = .ok (some scr, st1) →
      (∀ c ∈ choices, c.1 = false → ∀ e ∈ c.2.1, ∀ st : State,
        Eval n e env st = .ok (some (cval e), st)) →
      firstMatchBlock st1 scr cval choices = none →
      firstDefaultBlock choices = none →
      Eval (n + 1) (.switchE vN choices) env st0 = .ok (none, st1))
    ∧ (∀ (a : Int), run 3 (.program [.letS "a" (.integerLit a)]) = .ok none) := by
  refine ⟨?_, ?_, ?_, ?_⟩
  · intro n name valueN env st st1 v h hv
    simp [Eval, h, hv]
  · intro n name valueN env st st1 st2 lv v h1 hlv h2 hv
    simp only [Eval, evalAssignF, h1, hlv, Bool.false_eq_true, if_false, h2, hv]
    rw [if_neg (by decide : ¬ 2 ≤ ("=" : String).length)]
    simp only [hv, Bool.false_eq_true, if_false, assignStoreF]
  · intro n vN choices env st0 st1 scr cval hscr hpure hfm hfd
    simp only [Eval]
    rw [evalSwitchF_pure (Eval n) env cval scr vN choices st0 st1 hscr hpure]
    simp [hfm, hfd]
  · intro a
    rfl

/-- Witness for C10: fanya b = 4 yields no result object. -/
theorem c10_let_assign_switch_yield_nil_witness :
    Eval 2 (.letS "b" (.integerLit 4)) 0 initState =
      .ok (none, envSet initState 0 "b" (some (.integer 4))) :=
  c10_let_assign_switch_yield_nil.1 1 "b" (.integerLit 4) 0 initState initState
    (some (.integer 4)) rfl rfl
